import Mathlib

/-!
Verification of the RightScheme AI response-formatting pipeline.

The repository's core logic (js/app.js) turns free-form LLM output into
HTML: `formatResponse` is a chain of regex rewrites, `buildSchemeAccordion`
splits the response into per-scheme chunks and renders an accordion, and
`parseSchemeBody` slices one scheme's body at emoji-tagged headers.  The
server (server.js) is a single proxy endpoint.  Text is modelled as
`List Char`; each JavaScript regex pass is embedded as an explicit scanner
with the same leftmost-match / greedy-or-lazy semantics as the source.
-/

namespace RightScheme

abbrev Text := List Char

/-- JavaScript `\s` / `String.prototype.trim` whitespace (the code points
relevant here). -/
def isJsSpace (c : Char) : Bool :=
  c = ' ' || c = '\t' || c = '\n' || c = '\r' ||
  c = Char.ofNat 0x0B || c = Char.ofNat 0x0C ||
  c = Char.ofNat 0xA0 || c = Char.ofNat 0xFEFF ||
  c = Char.ofNat 0x2028 || c = Char.ofNat 0x2029

/-- JavaScript `String.prototype.trim`. -/
def trimText (cs : Text) : Text :=
  ((cs.dropWhile isJsSpace).reverse.dropWhile isJsSpace).reverse

/-- `String.prototype.substring(a, b)` (with `a ≤ b`). -/
def substringText (cs : Text) (a b : Nat) : Text :=
  (cs.drop a).take (b - a)

/-- Whether `pat` occurs as a contiguous substring (JS `String.includes`). -/
def containsSeq (pat : Text) : Text → Bool
  | [] => pat.isEmpty
  | c :: rest => pat.isPrefixOf (c :: rest) || containsSeq pat rest

/-- A matcher tries to recognize a regex match at the head of the input and
returns the replacement text together with the number of consumed
characters (always ≥ 1 for the patterns embedded here). -/
abbrev Matcher := Text → Option (Text × Nat)

/-- One global regex replacement (`String.prototype.replace` with the `g`
flag): scan left to right, at each position try the matcher; on a match
emit the replacement and resume after the matched characters, otherwise
keep the character.  Replacements are not rescanned, as in JavaScript.
The recursion is driven by a fuel counter so the function is structurally
recursive; each step consumes at least one character and one unit of fuel,
so starting the fuel at the input length makes exhaustion unreachable. -/
def rewriteFuel (m : Matcher) : Nat → Text → Text
  | _, [] => []
  | 0, cs => cs
  | f + 1, c :: rest =>
    match m (c :: rest) with
    | some (rep, n) => rep ++ rewriteFuel m f (List.drop (n - 1) rest)
    | none => c :: rewriteFuel m f rest

def rewriteAll (m : Matcher) (cs : Text) : Text :=
  rewriteFuel m cs.length cs

/-- Variant of `rewriteFuel` whose matcher also sees the previous character
(for the one lookbehind pattern in the source). -/
def rewriteFuelP (m : Option Char → Matcher) : Nat → Option Char → Text → Text
  | _, _, [] => []
  | 0, _, cs => cs
  | f + 1, prev, c :: rest =>
    match m prev (c :: rest) with
    | some (rep, n) =>
      rep ++ rewriteFuelP m f (((c :: rest).take n).getLast?) (List.drop (n - 1) rest)
    | none => c :: rewriteFuelP m f (some c) rest

def rewriteAllP (m : Option Char → Matcher) (prev : Option Char) (cs : Text) : Text :=
  rewriteFuelP m cs.length prev cs

theorem rewriteFuel_id (m : Matcher) (f : Nat) (cs : Text)
    (h : ∀ l, l <:+ cs → l ≠ [] → m l = none) : rewriteFuel m f cs = cs := by
  induction f generalizing cs with
  | zero => cases cs <;> simp [rewriteFuel]
  | succ f ih =>
    cases cs with
    | nil => simp [rewriteFuel]
    | cons c rest =>
      rw [rewriteFuel, h (c :: rest) (List.suffix_refl _) (by simp)]
      rw [ih rest (fun l hl hne => h l (hl.trans (List.suffix_cons c rest)) hne)]

theorem rewriteAll_id (m : Matcher) (cs : Text)
    (h : ∀ l, l <:+ cs → l ≠ [] → m l = none) : rewriteAll m cs = cs :=
  rewriteFuel_id m cs.length cs h

theorem rewriteFuelP_id (m : Option Char → Matcher) (f : Nat) (cs : Text)
    (prev : Option Char)
    (h : ∀ p l, l <:+ cs → l ≠ [] → m p l = none) : rewriteFuelP m f prev cs = cs := by
  induction f generalizing cs prev with
  | zero => cases cs <;> simp [rewriteFuelP]
  | succ f ih =>
    cases cs with
    | nil => simp [rewriteFuelP]
    | cons c rest =>
      rw [rewriteFuelP, h prev (c :: rest) (List.suffix_refl _) (by simp)]
      rw [ih rest (some c) (fun p l hl hne => h p l (hl.trans (List.suffix_cons c rest)) hne)]

theorem rewriteAllP_id (m : Option Char → Matcher) (cs : Text) (prev : Option Char)
    (h : ∀ p l, l <:+ cs → l ≠ [] → m p l = none) : rewriteAllP m prev cs = cs :=
  rewriteFuelP_id m cs.length cs prev h

/-- `escapeHtml` as used in `formatResponse` (and, behaviourally, the
DOM-based `escapeHtml` helper): `&` first, then `<`, then `>`.  Running the
three character replacements in this order is equivalent to one
simultaneous character-by-character substitution. -/
def escapeAmp (cs : Text) : Text :=
  cs.flatMap fun c => if c = '&' then "&amp;".data else [c]

def escapeLt (cs : Text) : Text :=
  cs.flatMap fun c => if c = '<' then "&lt;".data else [c]

def escapeGt (cs : Text) : Text :=
  cs.flatMap fun c => if c = '>' then "&gt;".data else [c]

/-- The source's escape step: `replace(/&/g,'&amp;').replace(/</g,'&lt;').replace(/>/g,'&gt;')`. -/
def escapeHtmlText (cs : Text) : Text :=
  escapeGt (escapeLt (escapeAmp cs))

/-! Line-based passes: the multiline (`m`-flag) anchored rewrites operate
per line; splitting on `'\n'`, rewriting each line, and re-joining is
equivalent because no replacement introduces a newline. -/

def splitOnNl : Text → List Text
  | [] => [[]]
  | c :: rest =>
    if c = '\n' then [] :: splitOnNl rest
    else
      match splitOnNl rest with
      | [] => [[c]]
      | l :: ls => (c :: l) :: ls

def mapLines (f : Text → Text) (cs : Text) : Text :=
  List.intercalate ['\n'] ((splitOnNl cs).map f)

/-- `replace(/^---+$/gm, '')`: a line consisting of three or more dashes
(and nothing else) is blanked. -/
def hrLine (l : Text) : Text :=
  if 3 ≤ l.length && l.all (· = '-') then [] else l

/-- `replace(/^### (.+)$/gm, '<h3>$1</h3>')` and the `##`/`#` analogues. -/
def headerLine (marker openT closeT l : Text) : Text :=
  if marker.isPrefixOf l && l.drop marker.length ≠ [] then
    openT ++ l.drop marker.length ++ closeT
  else l

/-- `replace(/^[-•] (.+)$/gm, '<li>$1</li>')`. -/
def bulletLine (l : Text) : Text :=
  match l with
  | c :: ' ' :: rest =>
    if (c = '-' || c = Char.ofNat 0x2022) && rest ≠ [] then
      "<li>".data ++ rest ++ "</li>".data
    else l
  | _ => l

/-- `replace(/^(\d+)\. (.+)$/gm, '<li>$1. $2</li>')`. -/
def numberedLine (l : Text) : Text :=
  let ds := l.takeWhile (·.isDigit)
  if ds = [] then l
  else
    match l.drop ds.length with
    | '.' :: ' ' :: rest =>
      if rest ≠ [] then "<li>".data ++ ds ++ ". ".data ++ rest ++ "</li>".data else l
    | _ => l

/-! Scanner-based passes. -/

/-- `replace(/\n{3,}/g, '\n\n')`. -/
def collapseNlM : Matcher := fun cs =>
  let ns := cs.takeWhile (· = '\n')
  if 3 ≤ ns.length then some ("\n\n".data, ns.length) else none

/-- `replace(/\[([^\]]+)\]\(([^)]+)\)/g, '<a href="$2" target="_blank" rel="noopener">$1</a>')`. -/
def linkM : Matcher
  | '[' :: rest =>
    let label := rest.takeWhile (· ≠ ']')
    if label = [] then none
    else
      match rest.drop label.length with
      | ']' :: '(' :: rest2 =>
        let url := rest2.takeWhile (· ≠ ')')
        if url = [] then none
        else
          match rest2.drop url.length with
          | ')' :: _ =>
            some ("<a href=\"".data ++ url ++ "\" target=\"_blank\" rel=\"noopener\">".data ++
                    label ++ "</a>".data,
                  1 + label.length + 2 + url.length + 1)
          | _ => none
      | _ => none
  | _ => none

/-- Length of the shortest nonempty run of non-newline characters followed
by `**` (the lazy `(.+?)` of the bold pattern). -/
def lazyToDoubleStar : Text → Option Nat
  | [] => none
  | c :: rest =>
    if c = '\n' then none
    else
      match rest with
      | '*' :: '*' :: _ => some 1
      | _ => (lazyToDoubleStar rest).map (· + 1)

/-- `replace(/\*\*(.+?)\*\*/g, '<strong>$1</strong>')`. -/
def boldM : Matcher
  | '*' :: '*' :: rest =>
    match lazyToDoubleStar rest with
    | some k => some ("<strong>".data ++ rest.take k ++ "</strong>".data, 2 + k + 2)
    | none => none
  | _ => none

/-- `replace(/(?<!=)\*([^*\n]+?)\*/g, '<em>$1</em>')`. -/
def italicM (prev : Option Char) : Matcher
  | '*' :: rest =>
    if prev = some '=' then none
    else
      let content := rest.takeWhile (fun c => c ≠ '*' && c ≠ '\n')
      if content = [] then none
      else
        match rest.drop content.length with
        | '*' :: _ => some ("<em>".data ++ content ++ "</em>".data, 1 + content.length + 1)
        | _ => none
  | _ => none

/-- Start index of the last occurrence of `pat` (nonempty) in a list. -/
def lastSubIdx (pat : Text) : Text → Option Nat
  | [] => none
  | c :: rest =>
    match lastSubIdx pat rest with
    | some i => some (i + 1)
    | none => if pat.isPrefixOf (c :: rest) then some 0 else none

/-- Length of one `<li>.*<\/li>` block at the head: the line must start
with `<li>` and the greedy `.*` reaches the last `</li>` on the line. -/
def liBlockLen (cs : Text) : Option Nat :=
  let line := cs.takeWhile (· ≠ '\n')
  if "<li>".data.isPrefixOf line then
    match lastSubIdx "</li>".data line with
    | some i => if 4 ≤ i then some (i + 5) else none
    | none => none
  else none

/-- Length of a maximal `(?:<li>.*<\/li>\n?)+` run: each iteration's
greedy `\n?` consumes a following newline even when no block follows.
Fuel-driven structural recursion; each step consumes at least one
character, so fuel = input length never runs out. -/
def liRunLenF : Nat → Text → Option Nat
  | fuel, cs =>
    match liBlockLen cs with
    | none => none
    | some b =>
      match cs.drop b with
      | '\n' :: rest2 =>
        match fuel with
        | 0 => some (b + 1)
        | f + 1 =>
          match liRunLenF f rest2 with
          | some r => some (b + 1 + r)
          | none => some (b + 1)
      | _ => some b

def liRunLen (cs : Text) : Option Nat :=
  liRunLenF cs.length cs

/-- `replace(/((?:<li>.*<\/li>\n?)+)/g, '<ul>$1</ul>')`. -/
def liWrapM : Matcher := fun cs =>
  match liRunLen cs with
  | some n => some ("<ul>".data ++ cs.take n ++ "</ul>".data, n)
  | none => none

/-- `replace(/\n\n/g, '</p><p>')`. -/
def nnM : Matcher
  | '\n' :: '\n' :: _ => some ("</p><p>".data, 2)
  | _ => none

/-- `replace(/\n/g, '<br>')`. -/
def brM : Matcher
  | '\n' :: _ => some ("<br>".data, 1)
  | _ => none

/-- `replace(/<p>\s*<\/p>/g, '')`. -/
def emptyPM : Matcher
  | '<' :: 'p' :: '>' :: rest =>
    let ws := rest.takeWhile isJsSpace
    if "</p>".data.isPrefixOf (rest.drop ws.length) then some ([], 3 + ws.length + 4)
    else none
  | _ => none

/-- `replace(/<p>\s*(<h[1-3]>)/g, '$1')`. -/
def pOpenHM : Matcher
  | '<' :: 'p' :: '>' :: rest =>
    let ws := rest.takeWhile isJsSpace
    match rest.drop ws.length with
    | '<' :: 'h' :: d :: '>' :: _ =>
      if d = '1' || d = '2' || d = '3' then some (['<', 'h', d, '>'], 3 + ws.length + 4)
      else none
    | _ => none
  | _ => none

/-- `replace(/(<\/h[1-3]>)\s*<\/p>/g, '$1')`. -/
def hClosePM : Matcher
  | '<' :: '/' :: 'h' :: d :: '>' :: rest =>
    if d = '1' || d = '2' || d = '3' then
      let ws := rest.takeWhile isJsSpace
      if "</p>".data.isPrefixOf (rest.drop ws.length) then
        some (['<', '/', 'h', d, '>'], 5 + ws.length + 4)
      else none
    else none
  | _ => none

/-- `replace(/<p>\s*(<ul>)/g, '$1')`. -/
def pOpenUlM : Matcher
  | '<' :: 'p' :: '>' :: rest =>
    let ws := rest.takeWhile isJsSpace
    if "<ul>".data.isPrefixOf (rest.drop ws.length) then some ("<ul>".data, 3 + ws.length + 4)
    else none
  | _ => none

/-- `replace(/(<\/ul>)\s*<\/p>/g, '$1')`. -/
def ulClosePM : Matcher
  | '<' :: '/' :: 'u' :: 'l' :: '>' :: rest =>
    let ws := rest.takeWhile isJsSpace
    if "</p>".data.isPrefixOf (rest.drop ws.length) then some ("</ul>".data, 5 + ws.length + 4)
    else none
  | _ => none

/-- A plain literal-for-literal replacement. -/
def litM (pat rep : Text) : Matcher := fun cs =>
  if pat.isPrefixOf cs then some (rep, pat.length) else none

/-- `replace(/<br>(<h[1-3]>)/g, '$1')`. -/
def brHM : Matcher
  | '<' :: 'b' :: 'r' :: '>' :: '<' :: 'h' :: d :: '>' :: _ =>
    if d = '1' || d = '2' || d = '3' then some (['<', 'h', d, '>'], 8) else none
  | _ => none

/-- `replace(/(<\/h[1-3]>)<br>/g, '$1')`. -/
def hBrM : Matcher
  | '<' :: '/' :: 'h' :: d :: '>' :: '<' :: 'b' :: 'r' :: '>' :: _ =>
    if d = '1' || d = '2' || d = '3' then some (['<', '/', 'h', d, '>'], 9) else none
  | _ => none

/-- `replace(/<br>\s*<br>/g, '<br>')`. -/
def brBrM : Matcher
  | '<' :: 'b' :: 'r' :: '>' :: rest =>
    let ws := rest.takeWhile isJsSpace
    if "<br>".data.isPrefixOf (rest.drop ws.length) then some ("<br>".data, 4 + ws.length + 4)
    else none
  | _ => none

/-- `formatResponse` (js/app.js lines 394–445): escape first, then the
markdown-to-HTML rewrites in source order, then paragraph wrapping and
clean-up rewrites. -/
def formatResponse (text : Text) : Text :=
  let html := escapeHtmlText text
  let html := mapLines hrLine html
  let html := rewriteAll collapseNlM html
  let html := rewriteAll linkM html
  let html := mapLines (headerLine "### ".data "<h3>".data "</h3>".data) html
  let html := mapLines (headerLine "## ".data "<h2>".data "</h2>".data) html
  let html := mapLines (headerLine "# ".data "<h1>".data "</h1>".data) html
  let html := rewriteAll boldM html
  let html := rewriteAllP italicM none html
  let html := mapLines bulletLine html
  let html := mapLines numberedLine html
  let html := rewriteAll liWrapM html
  let html := rewriteAll nnM html
  let html := rewriteAll brM html
  let html := "<p>".data ++ html ++ "</p>".data
  let html := rewriteAll emptyPM html
  let html := rewriteAll pOpenHM html
  let html := rewriteAll hClosePM html
  let html := rewriteAll pOpenUlM html
  let html := rewriteAll ulClosePM html
  let html := rewriteAll (litM "<p><br>".data "<p>".data) html
  let html := rewriteAll (litM "<br></p>".data "</p>".data) html
  let html := rewriteAll (litM "</ul><br>".data "</ul>".data) html
  let html := rewriteAll (litM "<br><ul>".data "<ul>".data) html
  let html := rewriteAll brHM html
  let html := rewriteAll hBrM html
  let html := rewriteAll brBrM html
  html

/-! Scheme accordion builder (js/app.js lines 451–567). -/

/-- The 🏛️ marker: U+1F3DB followed by the variation selector U+FE0F,
exactly the two code points written in the source literals. -/
def buildingEmoji : Text := [Char.ofNat 0x1F3DB, Char.ofNat 0xFE0F]

/-- Does the split lookahead `(?=##\s*🏛️)|(?=##\s*\d+\.)` match here? -/
def boundaryAt (cs : Text) : Bool :=
  match cs with
  | '#' :: '#' :: rest =>
    let r := rest.dropWhile isJsSpace
    buildingEmoji.isPrefixOf r ||
      (let ds := r.takeWhile (·.isDigit)
       ds ≠ [] &&
         (match r.drop ds.length with
          | '.' :: _ => true
          | _ => false))
  | _ => false

/-- Number of positions (anywhere in the text) where the scheme-heading
boundary pattern matches — the boundaries "found" in the text. -/
def countBoundaries : Text → Nat
  | [] => 0
  | c :: rest => (if boundaryAt (c :: rest) then 1 else 0) + countBoundaries rest

/-- `String.prototype.split` on the zero-width lookahead: the string is cut
at every position after the start where the lookahead matches. -/
def splitGo (acc : Text) : Text → List Text
  | [] => [acc.reverse]
  | c :: rest =>
    if acc ≠ [] && boundaryAt (c :: rest) then acc.reverse :: splitGo [c] rest
    else splitGo (c :: acc) rest

/-- `content.split(/(?=##\s*🏛️)|(?=##\s*\d+\.)/).filter(s => s.trim())`. -/
def schemeChunks (content : Text) : List Text :=
  (splitGo [] content).filter (fun s => trimText s ≠ [])

/-- Greedy-with-backtracking `\s*`: try the continuation after consuming the
longest whitespace prefix first, then shorter prefixes. -/
def tryFrom {α : Type _} (cont : Text → Option α) (s : Text) : Nat → Option α
  | 0 => cont s
  | i + 1 =>
    match cont (s.drop (i + 1)) with
    | some x => some x
    | none => tryFrom cont s i

def tryWs {α : Type _} (cont : Text → Option α) (s : Text) : Option α :=
  tryFrom cont s (s.takeWhile isJsSpace).length

/-- The capture of `/^##\s*(?:🏛️\s*)?(.+?)$/m` matched right after the
`##`, with the greedy optional 🏛️ group tried first at each `\s*` split. -/
def nmAfterHash (s : Text) : Option Text :=
  tryWs (fun r =>
    (if buildingEmoji.isPrefixOf r then
       tryWs (fun r3 =>
         let l := r3.takeWhile (· ≠ '\n')
         if l = [] then none else some l) (r.drop 2)
     else none) <|>
    (let l := r.takeWhile (· ≠ '\n')
     if l = [] then none else some l)) s

/-- Number of characters `/^##\s*.+$/` consumes after the `##`. -/
def hashHeadLen (s : Text) : Option Nat :=
  tryWs (fun r =>
    let l := r.takeWhile (· ≠ '\n')
    if l = [] then none else some ((s.length - r.length) + l.length)) s

def headNameHere : Text → Option Text
  | '#' :: '#' :: s => nmAfterHash s
  | _ => none

/-- Remainder after the text at the head that `/^##\s*.+$/` matches, or
`none` when the pattern does not match at this (line-start) position. -/
def headRemoveHere : Text → Option Text
  | '#' :: '#' :: s => (hashHeadLen s).map (fun k => s.drop k)
  | _ => none

/-- Text from the start of the line after the first `'\n'` (empty when the
input has no newline). -/
def dropToNextLine (cs : Text) : Text :=
  match cs.dropWhile (· ≠ '\n') with
  | [] => []
  | _ :: r => r

theorem dropToNextLine_lt (c : Char) (rest : Text) :
    (dropToNextLine (c :: rest)).length < (c :: rest).length := by
  unfold dropToNextLine
  have hsuf : (c :: rest).dropWhile (· ≠ '\n') <:+ c :: rest := List.dropWhile_suffix _
  have hle := hsuf.length_le
  cases hdw : (c :: rest).dropWhile (· ≠ '\n') with
  | nil => simp
  | cons x r =>
    rw [hdw] at hle
    simp only [List.length_cons] at hle ⊢
    omega

/-- The capture of the first match of `/^##\s*(?:🏛️\s*)?(.+?)$/m`
(`trimmed.match(...)` at line 468), scanning line starts left to right.
Fuel-driven; `dropToNextLine` strictly shrinks a nonempty input. -/
def findHashNameF : Nat → Text → Option Text
  | _, [] => none
  | 0, _ => none
  | f + 1, c :: rest =>
    match headNameHere (c :: rest) with
    | some nm => some nm
    | none => findHashNameF f (dropToNextLine (c :: rest))

def findHashName (cs : Text) : Option Text :=
  findHashNameF cs.length cs

/-- `trimmed.replace(/^##\s*.+$/m, '')`: remove the first heading match. -/
def removeHashHeadingF : Nat → Text → Text
  | _, [] => []
  | 0, cs => cs
  | f + 1, c :: rest =>
    match headRemoveHere (c :: rest) with
    | some after => after
    | none =>
      let line := (c :: rest).takeWhile (· ≠ '\n')
      match (c :: rest).drop line.length with
      | [] => c :: rest
      | nl :: after => line ++ nl :: removeHashHeadingF f after

def removeHashHeading (cs : Text) : Text :=
  removeHashHeadingF cs.length cs

/-- `replace(/^---+/gm, '')`: strip a leading run of three or more dashes. -/
def leadDashLine (l : Text) : Text :=
  let ds := l.takeWhile (· = '-')
  if 3 ≤ ds.length then l.drop ds.length else l

/-- The `replace` with regex `---+$` (flags `gm`), replacement `''`: strip a
trailing run of three or more dashes from each line. -/
def trailDashLine (l : Text) : Text :=
  let ds := l.reverse.takeWhile (· = '-')
  if 3 ≤ ds.length then (l.reverse.drop ds.length).reverse else l

/-- Case-insensitive literal prefix (pattern given in lower case), returning
the remainder on success. -/
def litCIPrefix : Text → Text → Option Text
  | [], s => some s
  | p :: ps, c :: s => if c.toLower = p then litCIPrefix ps s else none
  | _ :: _, [] => none

def digitsToNat (ds : Text) : Nat :=
  ds.foldl (fun n c => n * 10 + (c.toNat - 48)) 0

/-- The part of `/\*?\*?Match Score:\s*(\d+)%\*?\*?/i` after the optional
leading asterisks: returns the captured value and consumed length. -/
def scoreTail (s : Text) : Option (Nat × Nat) :=
  match litCIPrefix "match score:".data s with
  | none => none
  | some r1 =>
    let ws := r1.takeWhile isJsSpace
    let r2 := r1.drop ws.length
    let ds := r2.takeWhile (·.isDigit)
    if ds = [] then none
    else
      match r2.drop ds.length with
      | '%' :: r3 =>
        let stars := (r3.takeWhile (· = '*')).take 2
        some (digitsToNat ds, 12 + ws.length + ds.length + 1 + stars.length)
      | _ => none

/-- A match of the score pattern starting here (value, total length); the
two optional leading asterisks are tried greedily with backtracking. -/
def scoreMatchAt (cs : Text) : Option (Nat × Nat) :=
  (match cs with
   | '*' :: '*' :: s => (scoreTail s).map (fun p => (p.1, p.2 + 2))
   | _ => none) <|>
  (match cs with
   | '*' :: s => (scoreTail s).map (fun p => (p.1, p.2 + 1))
   | _ => none) <|>
  (scoreTail cs).map (fun p => (p.1, p.2))

/-- `schemeBody.match(/\*?\*?Match Score:\s*(\d+)%\*?\*?/i)` followed by
`parseInt(match[1])`: the first match's captured value. -/
def extractScore : Text → Option Nat
  | [] => none
  | c :: rest =>
    match scoreMatchAt (c :: rest) with
    | some (v, _) => some v
    | none => extractScore rest

/-- `schemeBody.replace(/\*?\*?Match Score:\s*\d+%\*?\*?/gi, '')`. -/
def removeScores (cs : Text) : Text :=
  rewriteAll (fun s => (scoreMatchAt s).map (fun p => ([], p.2))) cs

/-! `parseSchemeBody` (lines 510–567). -/

/-- The alternation `(💡|📋|✅|📝)` of `sectionRegex` (line 521). -/
def secEmojis : Text :=
  [Char.ofNat 0x1F4A1, Char.ofNat 0x1F4CB, Char.ofNat 0x2705, Char.ofNat 0x1F4DD]

structure SecMatch where
  index : Nat
  emoji : Char
  title : Text
  headerLen : Nat
deriving DecidableEq, Repr

/-- The part of a `/(💡|📋|✅|📝)\s*\*\*([^*]+)\*\*/` match after the
emoji: the raw title capture and the number of characters the whole match
consumes (emoji included). -/
def secHeaderLen (rest : Text) : Option (Text × Nat) :=
  match rest.dropWhile isJsSpace with
  | '*' :: '*' :: r2 =>
    if r2.takeWhile (· ≠ '*') = [] then none
    else
      match r2.drop (r2.takeWhile (· ≠ '*')).length with
      | '*' :: '*' :: _ =>
        some (r2.takeWhile (· ≠ '*'),
              1 + (rest.length - (rest.dropWhile isJsSpace).length) + 2 +
                (r2.takeWhile (· ≠ '*')).length + 2)
      | _ => none
  | _ => none

/-- A match of `/(💡|📋|✅|📝)\s*\*\*([^*]+)\*\*/` at the head:
`(emoji, raw title capture, match length)`. -/
def secMatchAt : Text → Option (Char × Text × Nat)
  | [] => none
  | c :: rest =>
    if c ∈ secEmojis then (secHeaderLen rest).map (fun p => (c, p.1, p.2))
    else none

/-- The `while ((match = sectionRegex.exec(body)) !== null)` loop: collect
all matches left to right, resuming after each match; titles are stored
trimmed (`title: match[2].trim()`).  Fuel-driven structural recursion. -/
def sectionScanF : Nat → Text → Nat → List SecMatch
  | _, [], _ => []
  | 0, _, _ => []
  | f + 1, c :: rest, pos =>
    match secMatchAt (c :: rest) with
    | some (e, ttl, len) =>
      ⟨pos, e, trimText ttl, len⟩ :: sectionScanF f (List.drop (len - 1) rest) (pos + len)
    | none => sectionScanF f rest (pos + 1)

def sectionMatches (body : Text) : List SecMatch := sectionScanF body.length body 0

/-- An emoji-tagged header as the section regex recognizes it: emoji, then
whitespace, then a bold-marked title. -/
def secHeader (e : Char) (ws t : Text) : Text :=
  e :: (ws ++ ('*' :: '*' :: (t ++ ['*', '*'])))

/-- The content the `forEach` at lines 545–560 computes for section `i`:
the trimmed text from the end of its own header to the start of the next
header (end of text for the last section). -/
def sectionContentAt (body : Text) (ms : List SecMatch) (i : Nat) : Text :=
  match ms[i]? with
  | none => []
  | some m =>
    trimText (substringText body (m.index + m.headerLen)
      (match ms[i + 1]? with
       | some m2 => m2.index
       | none => body.length))

/-- Modelled from the spec's words, for comparison with the code: the exact
text between the end of section `i`'s own header and the start of the next
header (or end of text), with no trimming applied. -/
def specSectionSpan (body : Text) (ms : List SecMatch) (i : Nat) : Text :=
  match ms[i]? with
  | none => []
  | some m =>
    substringText body (m.index + m.headerLen)
      (match ms[i + 1]? with
       | some m2 => m2.index
       | none => body.length)

/-- A concrete three-header scheme body used by the C3 witness. -/
def demoSchemeBody : Text :=
  "Note.\n".data ++ (secHeader (Char.ofNat 0x1F4A1) [' '] "Why".data ++
    ("\nGood fit.\n".data ++ (secHeader (Char.ofNat 0x1F4CB) [' '] "Key Benefits".data ++
      ("\nCash.\n".data ++ (secHeader (Char.ofNat 0x2705) [' '] "Eligibility".data ++
        "\nAll.".data)))))

/-- A concrete three-header scheme body whose first section's span carries
surrounding whitespace. -/
def bodyTrimCex : Text :=
  secHeader (Char.ofNat 0x1F4A1) [' '] "Why".data ++
    (" a \n".data ++
      (secHeader (Char.ofNat 0x1F4CB) [' '] "Ben".data ++
        (" b\n".data ++
          (secHeader (Char.ofNat 0x2705) [' '] "Eli".data ++ " c".data))))

structure SecMeta where
  icon : Text
  cls : Text
deriving DecidableEq, Repr

/-- `sectionMeta[m.emoji] || { icon: 'fa-info-circle', cls: 'info' }`. -/
def sectionMetaFor (e : Char) : SecMeta :=
  if e = Char.ofNat 0x1F4A1 then ⟨"fa-lightbulb".data, "why".data⟩
  else if e = Char.ofNat 0x1F4CB then ⟨"fa-clipboard-list".data, "benefits".data⟩
  else if e = Char.ofNat 0x2705 then ⟨"fa-circle-check".data, "eligibility".data⟩
  else if e = Char.ofNat 0x1F4DD then ⟨"fa-pen-to-square".data, "apply".data⟩
  else if e = Char.ofNat 0x274C then ⟨"fa-circle-xmark".data, "eligibility".data⟩
  else ⟨"fa-info-circle".data, "info".data⟩

def simpleBodyHtml (inner : Text) : Text :=
  "<div class=\"scheme-body-simple\">".data ++ inner ++ "</div>".data

/-- The per-section template literal (lines 551–559), whitespace included. -/
def sectionHtml (meta : SecMeta) (title content : Text) : Text :=
  "\n            <div class=\"scheme-section scheme-section--".data ++ meta.cls ++
  "\">\n                <div class=\"scheme-section-header\">\n                    <span class=\"scheme-section-icon\"><i class=\"fas ".data ++
  meta.icon ++
  "\"></i></span>\n                    <span class=\"scheme-section-title\">".data ++ title ++
  "</span>\n                </div>\n                <div class=\"scheme-section-content\">".data ++
  content ++
  "</div>\n            </div>\n        ".data

/-- Content span of each match: `[index + headerLen, next index)` (or end of
text for the last), trimmed, then rendered through `formatResponse`. -/
def renderSections (body : Text) : List SecMatch → Text
  | [] => []
  | [m] =>
    sectionHtml (sectionMetaFor m.emoji) m.title
      (formatResponse (trimText (substringText body (m.index + m.headerLen) body.length)))
  | m :: m2 :: tl =>
    sectionHtml (sectionMetaFor m.emoji) m.title
      (formatResponse (trimText (substringText body (m.index + m.headerLen) m2.index))) ++
    renderSections body (m2 :: tl)

/-- `parseSchemeBody` (lines 510–567). -/
def parseSchemeBody (body : Text) : Text :=
  match sectionMatches body with
  | [] => simpleBodyHtml (formatResponse body)
  | m :: ms =>
    let leading :=
      if 0 < m.index then
        let before := trimText (substringText body 0 m.index)
        if before = [] then [] else simpleBodyHtml (formatResponse before)
      else []
    leading ++ renderSections body (m :: ms)

/-! `buildSchemeAccordion` (lines 451–508). -/

/-- The score-badge display classification (line 497):
`score >= 80 ? 'high' : score >= 50 ? 'medium' : 'low'`. -/
def matchBadgeClass (score : Nat) : Text :=
  if 80 ≤ score then "high".data else if 50 ≤ score then "medium".data else "low".data

def natToText (n : Nat) : Text := (toString n).data

/-- The per-item template literal (lines 490–503), whitespace included. -/
def accordionItemHtml (id name : Text) (score : Option Nat) (bodyHTML : Text) : Text :=
  "\n            <div class=\"scheme-accordion-item\" id=\"".data ++ id ++
  "\">\n                <button class=\"scheme-accordion-header\" onclick=\"toggleSchemeAccordion(\x27".data ++
  id ++
  "\x27)\">\n                    <div class=\"scheme-accordion-title\">\n                        <span class=\"scheme-accordion-icon\"><i class=\"fas fa-chevron-right\"></i></span>\n                        <span class=\"scheme-accordion-name\">".data ++
  escapeHtmlText name ++
  "</span>\n                    </div>\n                    ".data ++
  (match score with
   | some s =>
     "<span class=\"scheme-match-badge ".data ++ matchBadgeClass s ++
     "\"><i class=\"fas fa-chart-line\"></i> ".data ++ natToText s ++ "%</span>".data
   | none => []) ++
  "\n                </button>\n                <div class=\"scheme-accordion-body\">\n                    ".data ++
  bodyHTML ++
  "\n                </div>\n            </div>\n        ".data

/-- Processing of one chunk inside `sections.forEach` (lines 463–504):
returns the emitted HTML and the updated `schemeIndex`. -/
def accordionChunk (idx : Nat) (chunk : Text) : Text × Nat :=
  let trimmed := trimText chunk
  if trimmed = [] then ([], idx)
  else
    match findHashName trimmed with
    | none => (formatResponse trimmed, idx)
    | some rawName =>
      let schemeName := trimText (rewriteAll (litM "**".data []) rawName)
      let body0 := trimText (removeHashHeading trimmed)
      let body1 := trimText (mapLines trailDashLine (mapLines leadDashLine body0))
      let score := extractScore body1
      let body2 := trimText (removeScores body1)
      let bodyHTML := parseSchemeBody body2
      let id := "scheme-".data ++ natToText idx
      (accordionItemHtml id schemeName score bodyHTML, idx + 1)

def accordionParts : List Text → Nat → Text
  | [], _ => []
  | chunk :: rest, idx =>
    let p := accordionChunk idx chunk
    p.1 ++ accordionParts rest p.2

def accordionOpen : Text := "<div class=\"scheme-accordion\">".data

/-- `buildSchemeAccordion` (lines 451–508). -/
def buildSchemeAccordion (content : Text) : Text :=
  let sections := schemeChunks content
  if sections.length ≤ 1 && !containsSeq buildingEmoji content then
    formatResponse content
  else
    accordionOpen ++ accordionParts sections 0 ++ "</div>".data

/-! Chat orchestrator (`sendMessage`, js/app.js lines 229–314). -/

inductive Role
  | system
  | user
  | assistant
deriving DecidableEq, Repr

structure ChatMsg where
  role : Role
  content : Text
deriving DecidableEq, Repr

inductive EntryKind
  | userMsg
  | botMsg
  | typing
deriving DecidableEq, Repr

/-- One visible transcript element: the raw content handed to
`addChatMessage` (or the typing indicator), in document order. -/
structure TEntry where
  content : Text
  kind : EntryKind
deriving DecidableEq, Repr

structure ChatState where
  history : List ChatMsg
  transcript : List TEntry
deriving DecidableEq, Repr

def emLightbulbT : Text := [Char.ofNat 0x1F4A1]

def emClipboardT : Text := [Char.ofNat 0x1F4CB]

def emMemoT : Text := [Char.ofNat 0x1F4DD]

/-- The `systemPrompt` template literal (lines 246–285). -/
def chatSystemPrompt : Text :=
  "You are RightScheme AI, an expert assistant on Indian Government Schemes. You have comprehensive knowledge of:\n- All Central Government schemes\n- State Government schemes for all Indian states\n- Eligibility criteria, benefits, application processes, and required documents\n\nGuidelines:\n- Provide accurate, up-to-date information about government schemes\n- Always mention the official scheme name\n- If the user mentions their state, include state-specific schemes\n- Be conversational but informative\n- Respond in the language the user uses\n- If unsure about specific details, mention that the user should verify from the official website\n\nWhen recommending schemes, use this format for EACH scheme:\n\n## ".data ++
  buildingEmoji ++ " [Scheme Name]\n\n".data ++
  emLightbulbT ++ " **Why This Scheme**\n[1-2 sentences explaining relevance]\n\n".data ++
  emClipboardT ++
  " **Key Benefits**\n• [Benefit 1]\n• [Benefit 2]\n• [Benefit 3]\n\n✅ **Eligibility Status**\n✅ **Age Requirement** — Requirement: [criteria]\n✅ **Income Limit** — Requirement: [criteria]\n✅ **Category** — Requirement: [criteria]\n✅ **Occupation** — Requirement: [criteria]\n✅ **State** — Requirement: [criteria]\n\n".data ++
  emMemoT ++
  " **How to Apply**\n• 1. [Step 1]\n• 2. [Step 2]\n• 3. [Step 3]\n\n**Match Score: [X]%**\n\nUse ✅ for met criteria and ❌ for unmet. Include official portal links where available. For general questions, respond conversationally without the template.".data

def containsCI (pat cs : Text) : Bool :=
  containsSeq pat (cs.map Char.toLower)

def quotaErrorMsg : Text :=
  "⚠️ **API quota exceeded.** Your Groq API key has hit its rate limit. Please wait a moment or check your Groq dashboard and try again.".data

def rateErrorMsg : Text :=
  "⚠️ **Rate limit reached.** Too many requests sent. Please wait a moment and try again.".data

/-- The error classification in `sendMessage`'s catch block (lines 303–310). -/
def classifyChatError (msg : Text) : Text :=
  if msg ≠ [] && containsCI "quota".data msg then quotaErrorMsg
  else if msg ≠ [] && containsCI "rate".data msg then rateErrorMsg
  else
    "⚠️ **Error:** ".data ++
      (if msg = [] then "Something went wrong. Please try again later.".data else msg)

/-- `removeTypingIndicator`: drop the first typing element in document
order (`getElementById` returns the first match). -/
def removeTypingEntry : List TEntry → List TEntry
  | [] => []
  | e :: rest => if e.kind = EntryKind.typing then rest else e :: removeTypingEntry rest

/-- The part of `sendMessage` before the backend call: trim, bail out on an
empty message, append the user message to the transcript and history, show
the typing indicator, and assemble the request messages
(`[systemPrompt, ...chatHistory]`).  `none` means no request is issued. -/
def sendPrep (st : ChatState) (input : Text) : Option (ChatState × List ChatMsg) :=
  let message := trimText input
  if message = [] then none
  else
    let hist := st.history ++ [⟨Role.user, message⟩]
    some (⟨hist, st.transcript ++ [⟨message, EntryKind.userMsg⟩, ⟨[], EntryKind.typing⟩]⟩,
          ⟨Role.system, chatSystemPrompt⟩ :: hist)

/-- The part of `sendMessage` after the backend call resolves: on success
push the assistant reply onto the history and transcript; on failure
append only the classified error to the transcript. -/
def sendComplete (st : ChatState) (result : Except Text Text) : ChatState :=
  match result with
  | .ok response =>
    ⟨st.history ++ [⟨Role.assistant, response⟩],
     removeTypingEntry st.transcript ++ [⟨response, EntryKind.botMsg⟩]⟩
  | .error e =>
    ⟨st.history,
     removeTypingEntry st.transcript ++ [⟨classifyChatError e, EntryKind.botMsg⟩]⟩

/-- One whole `sendMessage` turn, with the backend outcome as a parameter. -/
def sendMessageModel (st : ChatState) (input : Text) (result : Except Text Text) : ChatState :=
  match sendPrep st input with
  | none => st
  | some (st1, _) => sendComplete st1 result

/-! Backend proxy endpoint (server.js, `app.post('/api/chat')`). -/

structure ChatRequestBody where
  messages : List ChatMsg
  maxTokens : Option Nat
deriving DecidableEq, Repr

inductive ServerAction
  | respond (status : Nat) (error : Text)
  | callUpstream (messages : List ChatMsg) (maxTokens : Nat)
deriving DecidableEq, Repr

def missingKeyError : Text :=
  "GROQ_API_KEY not set. Add it to your .env file.".data

/-- The handler up to its first outbound action: `if (!apiKey)` (absent or
empty, both falsy) responds 500 immediately; otherwise the Groq call is
issued with `max_tokens = 3000` as destructuring default. -/
def chatEndpoint (apiKey : Option Text) (req : ChatRequestBody) : ServerAction :=
  match apiKey with
  | none => .respond 500 missingKeyError
  | some k =>
    if k = [] then .respond 500 missingKeyError
    else .callUpstream req.messages (req.maxTokens.getD 3000)

/-- The literal bold match-score marker discussed by the specification. -/
def score73marker : Text := "**Match Score: 73%**".data

def lettersList : Text := "abcdefghijklmnopqrstuvwxyzABCDEFGHIJKLMNOPQRSTUVWXYZ".data

def safePunct : Text := " &<>;.,!?:".data

/-- Plain-text characters: ASCII letters plus a few punctuation marks and
the three HTML-special characters, none of which triggers any markdown
rewrite of `formatResponse`. -/
def safeChar (c : Char) : Bool := decide (c ∈ lettersList) || decide (c ∈ safePunct)

/-! Helper lemmas shared by the claim theorems. -/

theorem take_mem_of_append {c : Char} {x y : Text} {n : Nat}
    (h : c ∈ (x ++ y).take n) : c ∈ x ∨ c ∈ y.take n := by
  rw [List.take_append_eq_append_take] at h
  rcases List.mem_append.1 h with h | h
  · exact Or.inl (List.take_subset _ _ h)
  · right
    have : y.take (n - x.length) = (y.take n).take (n - x.length) := by
      rw [List.take_take, Nat.min_eq_left (by omega)]
    rw [this] at h
    exact List.take_subset _ _ h

theorem litCIPrefix_ms_none (s : Text)
    (h : ∀ c ∈ s.take 1, c.toLower ≠ 'm') :
    litCIPrefix "match score:".data s = none := by
  cases s with
  | nil => rfl
  | cons c s' =>
    have hstep : "match score:".data = 'm' :: "atch score:".data := rfl
    rw [hstep, litCIPrefix, if_neg (h c (by simp))]

theorem scoreTail_none (s : Text)
    (h : ∀ c ∈ s.take 1, c.toLower ≠ 'm') : scoreTail s = none := by
  unfold scoreTail
  rw [litCIPrefix_ms_none s h]

theorem scoreMatchAt_none (cs : Text)
    (h : ∀ c ∈ cs.take 3, c.toLower ≠ 'm') : scoreMatchAt cs = none := by
  have comp3 : Option.map (fun p : Nat × Nat => (p.1, p.2)) (scoreTail cs) = none := by
    have hs : scoreTail cs = none := by
      apply scoreTail_none
      intro c hc
      cases cs with
      | nil => simp at hc
      | cons a s =>
        simp only [List.take_succ_cons, List.take_zero, List.mem_singleton] at hc
        subst hc
        exact h c (by simp)
    rw [hs]; rfl
  have comp2 :
      (match cs with
       | '*' :: s => Option.map (fun p : Nat × Nat => (p.1, p.2 + 1)) (scoreTail s)
       | _ => none) = none := by
    split
    · next s =>
      have hs : scoreTail s = none := by
        apply scoreTail_none
        intro c hc
        cases s with
        | nil => simp at hc
        | cons b s2 =>
          simp only [List.take_succ_cons, List.take_zero, List.mem_singleton] at hc
          subst hc
          exact h c (by simp)
      rw [hs]; rfl
    · rfl
  have comp1 :
      (match cs with
       | '*' :: '*' :: s => Option.map (fun p : Nat × Nat => (p.1, p.2 + 2)) (scoreTail s)
       | _ => none) = none := by
    split
    · next s =>
      have hs : scoreTail s = none := by
        apply scoreTail_none
        intro c hc
        cases s with
        | nil => simp at hc
        | cons b s2 =>
          simp only [List.take_succ_cons, List.take_zero, List.mem_singleton] at hc
          subst hc
          exact h c (by simp)
      rw [hs]; rfl
    · rfl
  unfold scoreMatchAt
  rw [comp1, comp2, comp3]
  rfl

theorem scoreMatchAt_marker (suf : Text) :
    scoreMatchAt (score73marker ++ suf) = some (73, 20) := rfl

theorem extractScore_cons_some {c : Char} {rest : Text} {v k : Nat}
    (h : scoreMatchAt (c :: rest) = some (v, k)) :
    extractScore (c :: rest) = some v := by
  rw [extractScore, h]

theorem extractScore_append (pre tail : Text)
    (hpre : ∀ c ∈ pre, c.toLower ≠ 'm')
    (htail : ∀ c ∈ tail.take 2, c.toLower ≠ 'm') :
    extractScore (pre ++ tail) = extractScore tail := by
  induction pre with
  | nil => rfl
  | cons a pre' ih =>
    have hnone : scoreMatchAt (a :: (pre' ++ tail)) = none := by
      apply scoreMatchAt_none
      intro c hc
      simp only [List.take_succ_cons, List.mem_cons] at hc
      rcases hc with rfl | hc
      · exact hpre c (by simp)
      · rcases take_mem_of_append hc with h | h
        · exact hpre c (by simp [h])
        · exact htail c h
    rw [List.cons_append, extractScore, hnone]
    exact ih (fun c hc => hpre c (by simp [hc]))

theorem rewriteFuel_zero (m : Matcher) (cs : Text) : rewriteFuel m 0 cs = cs := by
  cases cs <;> rfl

theorem rewriteFuel_append (m : Matcher) (pre tail : Text)
    (hpre : ∀ l, l ≠ [] → l <:+ pre → m (l ++ tail) = none) :
    ∀ f, rewriteFuel m f (pre ++ tail) = pre ++ rewriteFuel m (f - pre.length) tail := by
  induction pre with
  | nil => intro f; simp
  | cons a pre' ih =>
    intro f
    cases f with
    | zero =>
      rw [Nat.zero_sub, rewriteFuel_zero, List.cons_append, rewriteFuel_zero]
      rfl
    | succ f' =>
      have hnone : m (a :: (pre' ++ tail)) = none :=
        hpre (a :: pre') (by simp) (List.suffix_refl _)
      rw [List.cons_append, rewriteFuel, hnone]
      rw [ih (fun l hl hs => hpre l hl (hs.trans (List.suffix_cons a pre'))) f']
      simp only [List.length_cons, List.cons_append]
      have harith : f' + 1 - (pre'.length + 1) = f' - pre'.length := by omega
      rw [harith]

theorem removeTypingEntry_append (l l2 : List TEntry)
    (h : ∀ e ∈ l, e.kind ≠ EntryKind.typing) :
    removeTypingEntry (l ++ l2) = l ++ removeTypingEntry l2 := by
  induction l with
  | nil => rfl
  | cons e rest ih =>
    rw [List.cons_append, removeTypingEntry, if_neg (by exact h e (by simp))]
    rw [ih (fun x hx => h x (by simp [hx])), List.cons_append]

/-! Claim theorems. -/

/-- Claim C1: parsing is total.  Both `formatResponse` and
`buildSchemeAccordion` are total functions on arbitrary input text
(including the empty string, pure whitespace and unterminated markdown
markers, which are just particular values of `t`), and
`buildSchemeAccordion` either takes the unstructured fallback — returning
exactly `formatResponse t` when no scheme structure is found — or produces
the accordion wrapper. -/
theorem buildAccordion_total_fallback (t : Text) :
    ((schemeChunks t).length ≤ 1 ∧ containsSeq buildingEmoji t = false →
        buildSchemeAccordion t = formatResponse t) ∧
    (¬((schemeChunks t).length ≤ 1 ∧ containsSeq buildingEmoji t = false) →
        accordionOpen <+: buildSchemeAccordion t) := by
  constructor
  · rintro ⟨h1, h2⟩
    simp [buildSchemeAccordion, h1, h2]
  · intro h
    have hcond : (decide ((schemeChunks t).length ≤ 1) && !containsSeq buildingEmoji t) = false := by
      rcases Decidable.not_and_iff_or_not.1 h with h1 | h2
      · simp [h1]
      · have h2' : containsSeq buildingEmoji t = true := by
          revert h2; cases containsSeq buildingEmoji t <;> simp
        simp [h2']
    unfold buildSchemeAccordion
    rw [if_neg (by simp [hcond])]
    rw [List.append_assoc]
    exact List.prefix_append _ _

/-- Witness for C1: a free-form reply falls back to `formatResponse`; a
reply containing a 🏛️ heading produces the accordion wrapper. -/
theorem buildAccordion_total_fallback_witness :
    buildSchemeAccordion "hi".data = formatResponse "hi".data ∧
    accordionOpen <+: buildSchemeAccordion ("## ".data ++ buildingEmoji ++ " A\nB".data) :=
  ⟨(buildAccordion_total_fallback "hi".data).1 ⟨by decide, by decide⟩,
   (buildAccordion_total_fallback _).2 (by decide)⟩

/-- Claim C2 (counterexample): in `"intro\n## 1. X"` exactly one
scheme-heading boundary is found and the 🏛️ emoji is absent, yet
`buildSchemeAccordion` does not fall back to `formatResponse`: the single
boundary splits the text into two nonempty chunks, so an accordion is
built. -/
theorem accordion_fallback_boundary_cex :
    countBoundaries "intro\n## 1. X".data = 1 ∧
    containsSeq buildingEmoji "intro\n## 1. X".data = false ∧
    buildSchemeAccordion "intro\n## 1. X".data ≠ formatResponse "intro\n## 1. X".data :=
  ⟨by decide, by decide, by decide⟩

/-- Claim C2 (amended): for every input in which the boundary split yields
at most one nonempty chunk and the 🏛️ emoji is absent anywhere in the
text, `buildSchemeAccordion` returns output equal to `formatResponse`
applied to that same text. -/
theorem accordion_fallback_amended (t : Text)
    (h1 : (schemeChunks t).length ≤ 1) (h2 : containsSeq buildingEmoji t = false) :
    buildSchemeAccordion t = formatResponse t := by
  simp [buildSchemeAccordion, h1, h2]

/-- Witness for the amended C2 at a concrete conversational reply. -/
theorem accordion_fallback_amended_witness :
    buildSchemeAccordion "Namaste! How can I help you today?".data
      = formatResponse "Namaste! How can I help you today?".data :=
  accordion_fallback_amended _ (by decide) (by decide)

/-- Claim C5: the badge display class is `"high"` for scores ≥ 80,
`"medium"` for 50–79 and `"low"` below 50, with the boundaries 79/80 and
49/50 mapping to different classes. -/
theorem match_badge_bands (n : Nat) (hn : n ≤ 100) :
    (80 ≤ n → matchBadgeClass n = "high".data) ∧
    (50 ≤ n ∧ n ≤ 79 → matchBadgeClass n = "medium".data) ∧
    (n < 50 → matchBadgeClass n = "low".data) ∧
    matchBadgeClass 79 ≠ matchBadgeClass 80 ∧
    matchBadgeClass 49 ≠ matchBadgeClass 50 := by
  refine ⟨?_, ?_, ?_, by decide, by decide⟩
  · intro h
    unfold matchBadgeClass
    rw [if_pos h]
  · rintro ⟨h1, h2⟩
    unfold matchBadgeClass
    rw [if_neg (by omega), if_pos h1]
  · intro h
    unfold matchBadgeClass
    rw [if_neg (by omega), if_neg (by omega)]

/-- Witness for C5 at score 85. -/
theorem match_badge_bands_witness : matchBadgeClass 85 = "high".data :=
  (match_badge_bands 85 (by decide)).1 (by decide)

/-- Claim C9: with the API key absent, the endpoint responds
`500 {error: "GROQ_API_KEY not set. Add it to your .env file."}` for every
request body; the resulting action is the immediate response, not a
`callUpstream`, so no upstream call is made. -/
theorem missing_api_key_responds_500 (req : ChatRequestBody) :
    chatEndpoint none req = ServerAction.respond 500 missingKeyError := rfl

/-- Claim C8: when the backend call fails, the classified error message is
appended to the visible transcript only; `chatHistory` after the failed
turn is the old history plus the user's message — no assistant entry and no
synthetic error content is pushed onto it. -/
theorem failed_turn_error_not_in_history (st : ChatState) (input e : Text)
    (hne : trimText input ≠ [])
    (hty : ∀ en ∈ st.transcript, en.kind ≠ EntryKind.typing) :
    (sendMessageModel st input (Except.error e)).history
        = st.history ++ [⟨Role.user, trimText input⟩] ∧
    (∀ m ∈ (sendMessageModel st input (Except.error e)).history,
        m.role = Role.assistant → m ∈ st.history) ∧
    (sendMessageModel st input (Except.error e)).transcript
        = st.transcript ++
            [⟨trimText input, EntryKind.userMsg⟩, ⟨classifyChatError e, EntryKind.botMsg⟩] := by
  have h1 : (sendMessageModel st input (Except.error e)).history
      = st.history ++ [⟨Role.user, trimText input⟩] := by
    simp [sendMessageModel, sendPrep, sendComplete, hne]
  refine ⟨h1, ?_, ?_⟩
  · intro m hm hrole
    rw [h1] at hm
    rcases List.mem_append.1 hm with h | h
    · exact h
    · simp only [List.mem_singleton] at h
      subst h
      simp at hrole
  · simp only [sendMessageModel, sendPrep, hne, reduceIte, sendComplete]
    rw [removeTypingEntry_append st.transcript _ hty]
    simp [removeTypingEntry]

/-- Witness for C8: a failed turn from the empty state leaves exactly the
user's message in the history. -/
theorem failed_turn_error_not_in_history_witness :
    (sendMessageModel ⟨[], []⟩ " PM Kisan? ".data (Except.error "boom".data)).history
        = [⟨Role.user, "PM Kisan?".data⟩] := by
  have h := failed_turn_error_not_in_history ⟨[], []⟩ " PM Kisan? ".data "boom".data
    (by decide) (by intro en hen; simp at hen)
  rw [h.1]
  decide

/-- Claim C10: an empty or whitespace-only chat input makes `sendMessage`
return before any state change: no request is prepared (no history or
transcript append, no typing indicator, no backend call) and the state is
unchanged whatever the backend outcome would have been. -/
theorem empty_chat_input_noop (st : ChatState) (input : Text) (result : Except Text Text)
    (h : trimText input = []) :
    sendPrep st input = none ∧ sendMessageModel st input result = st := by
  constructor
  · simp [sendPrep, h]
  · simp [sendMessageModel, sendPrep, h]

/-- Witness for C10 on a pure-whitespace input. -/
theorem empty_chat_input_noop_witness :
    sendPrep ⟨[], []⟩ "   ".data = none ∧
    sendMessageModel ⟨[], []⟩ "   ".data (Except.ok "hi".data) = ⟨[], []⟩ :=
  empty_chat_input_noop ⟨[], []⟩ "   ".data (Except.ok "hi".data) (by decide)

/-- Claim C4 (counterexample): a scheme body that contains the literal
`"**Match Score: 73%**"` but also an earlier plain `"Match Score: 10%"`
marker yields the extracted score 10, not 73 — `match` returns the first
match, so the claim's universal statement over all bodies containing the
bold 73% marker fails. -/
theorem match_score_first_marker_cex :
    containsSeq score73marker "Match Score: 10% **Match Score: 73%**".data = true ∧
    extractScore "Match Score: 10% **Match Score: 73%**".data = some 10 ∧
    extractScore "Match Score: 10% **Match Score: 73%**".data ≠ some 73 :=
  ⟨by decide, by decide, by decide⟩

/-- Claim C4 (amended): when `"**Match Score: 73%**"` is the only marker
occurrence in the body — here guaranteed by the rest of the body containing
no letter `m`/`M` — the extraction yields 73, the single-scan global
replacement removes exactly the marker, and the marker substring is absent
from the cleaned body (hence from every section content rendered from
it). -/
theorem match_score_extract_remove (pre suf : Text)
    (hpre : ∀ c ∈ pre, c.toLower ≠ 'm') (hsuf : ∀ c ∈ suf, c.toLower ≠ 'm') :
    extractScore (pre ++ (score73marker ++ suf)) = some 73 ∧
    removeScores (pre ++ (score73marker ++ suf)) = pre ++ suf ∧
    ¬ score73marker <:+: pre ++ suf := by
  have htail2 : ∀ c ∈ (score73marker ++ suf).take 2, c.toLower ≠ 'm' := by
    intro c hc
    have : c = '*' := by
      have he : (score73marker ++ suf).take 2 = ['*', '*'] := rfl
      rw [he] at hc
      simpa using hc
    subst this
    decide
  refine ⟨?_, ?_, ?_⟩
  · rw [extractScore_append pre (score73marker ++ suf) hpre htail2]
    have e1 : score73marker ++ suf
        = '*' :: ('*' :: ("Match Score: 73%**".data ++ suf)) := rfl
    rw [e1]
    exact extractScore_cons_some (by rw [← e1]; exact scoreMatchAt_marker suf)
  · unfold removeScores rewriteAll
    rw [rewriteFuel_append _ pre (score73marker ++ suf) ?hM _]
    case hM =>
      intro l hl hs
      rcases l with _ | ⟨d, l'⟩
      · exact absurd rfl hl
      · have hnone : scoreMatchAt (d :: (l' ++ (score73marker ++ suf))) = none := by
          apply scoreMatchAt_none
          intro c hc
          simp only [List.take_succ_cons, List.mem_cons] at hc
          rcases hc with rfl | hc
          · exact hpre c (hs.subset (by simp))
          · rcases take_mem_of_append hc with h | h
            · exact hpre c (hs.subset (by simp [h]))
            · exact htail2 c h
        show Option.map _ (scoreMatchAt ((d :: l') ++ (score73marker ++ suf))) = none
        rw [List.cons_append, hnone]
        rfl
    · have h20 : score73marker.length = 20 := rfl
      have hg : (pre ++ (score73marker ++ suf)).length - pre.length
          = (19 + suf.length) + 1 := by
        simp [List.length_append, h20]
        omega
      rw [hg]
      have e1 : score73marker ++ suf
          = '*' :: ("*Match Score: 73%**".data ++ suf) := rfl
      rw [e1, rewriteFuel]
      have h1 : scoreMatchAt ('*' :: ("*Match Score: 73%**".data ++ suf))
          = some (73, 20) := scoreMatchAt_marker suf
      rw [h1]
      have hid : rewriteFuel
            (fun s => Option.map (fun p : Nat × Nat => (([] : Text), p.2)) (scoreMatchAt s))
            (19 + suf.length)
            (List.drop (20 - 1) ("*Match Score: 73%**".data ++ suf)) = suf := by
        have hdrop : List.drop (20 - 1) ("*Match Score: 73%**".data ++ suf) = suf := by
          rw [show (20 - 1 : Nat) = "*Match Score: 73%**".data.length from rfl]
          exact List.drop_left _ _
        rw [hdrop]
        apply rewriteFuel_id
        intro l hls hlne
        have hnone : scoreMatchAt l = none := by
          apply scoreMatchAt_none
          intro c hc
          exact hsuf c (hls.subset (List.take_subset _ _ hc))
        show Option.map (fun p : Nat × Nat => (([] : Text), p.2)) (scoreMatchAt l) = none
        rw [hnone]
        rfl
      show pre ++ ([] ++ rewriteFuel _ (19 + suf.length)
            (List.drop (20 - 1) ("*Match Score: 73%**".data ++ suf))) = pre ++ suf
      rw [hid]
      simp
  · intro hinf
    have hM : 'M' ∈ pre ++ suf := hinf.subset (by decide)
    rcases List.mem_append.1 hM with h | h
    · exact hpre 'M' h (by decide)
    · exact hsuf 'M' h (by decide)

theorem takeWhile_append_cons (p : Char → Bool) (xs : Text) (y : Char) (ys : Text)
    (hx : ∀ c ∈ xs, p c = true) (hy : p y = false) :
    (xs ++ y :: ys).takeWhile p = xs := by
  induction xs with
  | nil => simp [List.takeWhile_cons, hy]
  | cons a xs ih =>
    have ha := hx a (by simp)
    rw [List.cons_append, List.takeWhile_cons, ha]
    simp only [if_true]
    rw [ih (fun c hc => hx c (by simp [hc]))]

theorem dropWhile_append_cons (p : Char → Bool) (xs : Text) (y : Char) (ys : Text)
    (hx : ∀ c ∈ xs, p c = true) (hy : p y = false) :
    (xs ++ y :: ys).dropWhile p = y :: ys := by
  induction xs with
  | nil => simp [List.dropWhile_cons, hy]
  | cons a xs ih =>
    have ha := hx a (by simp)
    rw [List.cons_append, List.dropWhile_cons, ha]
    simp only [if_true]
    exact ih (fun c hc => hx c (by simp [hc]))

theorem secMatchAt_not_emoji {c : Char} {rest : Text} (h : c ∉ secEmojis) :
    secMatchAt (c :: rest) = none := by
  simp [secMatchAt, h]

theorem sectionScanF_nil (f pos : Nat) : sectionScanF f [] pos = [] := by
  cases f <;> rfl

theorem sectionScanF_zero (cs : Text) (pos : Nat) : sectionScanF 0 cs pos = [] := by
  cases cs <;> rfl

theorem sectionScanF_skip (xs ys : Text) (hxs : ∀ c ∈ xs, c ∉ secEmojis) :
    ∀ (f pos : Nat),
      sectionScanF f (xs ++ ys) pos = sectionScanF (f - xs.length) ys (pos + xs.length) := by
  induction xs with
  | nil => intro f pos; simp
  | cons x xs ih =>
    intro f pos
    cases f with
    | zero =>
      rw [Nat.zero_sub, List.cons_append, sectionScanF_zero, sectionScanF_zero]
    | succ f' =>
      have hn := @secMatchAt_not_emoji x (xs ++ ys) (hxs x (by simp))
      rw [List.cons_append, sectionScanF, hn]
      rw [ih (fun c hc => hxs c (by simp [hc])) f' (pos + 1)]
      have e1 : f' - xs.length = f' + 1 - (x :: xs).length := by
        simp only [List.length_cons]; omega
      have e2 : pos + 1 + xs.length = pos + (x :: xs).length := by
        simp only [List.length_cons]; omega
      rw [e1, e2]

theorem sectionScanF_cons_some (f pos : Nat) {c : Char} {rest : Text} {e : Char}
    {ttl : Text} {len : Nat} (h : secMatchAt (c :: rest) = some (e, ttl, len)) :
    sectionScanF (f + 1) (c :: rest) pos
      = ⟨pos, e, trimText ttl, len⟩ :: sectionScanF f (List.drop (len - 1) rest) (pos + len) := by
  rw [sectionScanF, h]

theorem sectionScanF_cons_none (f pos : Nat) {c : Char} {rest : Text}
    (h : secMatchAt (c :: rest) = none) :
    sectionScanF (f + 1) (c :: rest) pos = sectionScanF f rest (pos + 1) := by
  rw [sectionScanF, h]

theorem sectionScanF_eq_of_ge (f1 : Nat) :
    ∀ (f2 : Nat) (cs : Text) (pos : Nat), cs.length ≤ f1 → cs.length ≤ f2 →
      sectionScanF f1 cs pos = sectionScanF f2 cs pos := by
  induction f1 with
  | zero =>
    intro f2 cs pos h1 _
    have : cs = [] := List.eq_nil_of_length_eq_zero (Nat.le_zero.1 h1)
    subst this
    rw [sectionScanF_nil, sectionScanF_nil]
  | succ f1' ih =>
    intro f2 cs pos h1 h2
    cases cs with
    | nil => rw [sectionScanF_nil, sectionScanF_nil]
    | cons c rest =>
      cases f2 with
      | zero => simp at h2
      | succ f2' =>
        simp only [List.length_cons] at h1 h2
        cases hsec : secMatchAt (c :: rest) with
        | none =>
          rw [sectionScanF_cons_none f1' pos hsec, sectionScanF_cons_none f2' pos hsec]
          exact ih f2' rest (pos + 1) (by omega) (by omega)
        | some trip =>
          obtain ⟨e, ttl, len⟩ := trip
          have hd : (List.drop (len - 1) rest).length ≤ rest.length := by
            rw [List.length_drop]; omega
          rw [sectionScanF_cons_some f1' pos hsec, sectionScanF_cons_some f2' pos hsec]
          rw [ih f2' (List.drop (len - 1) rest) (pos + len) (by omega) (by omega)]

theorem secMatchAt_header (e : Char) (ws t rest : Text)
    (he : e ∈ secEmojis) (hws : ∀ c ∈ ws, isJsSpace c = true)
    (ht : t ≠ []) (hts : ∀ c ∈ t, c ≠ '*') :
    secMatchAt (secHeader e ws t ++ rest)
      = some (e, t, (secHeader e ws t).length) := by
  have hshape : secHeader e ws t ++ rest
      = e :: (ws ++ ('*' :: '*' :: (t ++ ('*' :: '*' :: rest)))) := by
    simp [secHeader, List.append_assoc]
  rw [hshape]
  simp only [secMatchAt, if_pos he]
  have hdw : (ws ++ ('*' :: '*' :: (t ++ ('*' :: '*' :: rest)))).dropWhile isJsSpace
      = '*' :: '*' :: (t ++ ('*' :: '*' :: rest)) :=
    dropWhile_append_cons isJsSpace ws '*' _ hws (by decide)
  have htw : (t ++ ('*' :: '*' :: rest)).takeWhile (fun x => decide ¬x = '*') = t := by
    apply takeWhile_append_cons
    · intro c hc
      simpa using hts c hc
    · decide
  have hlen : (ws ++ ('*' :: '*' :: (t ++ ('*' :: '*' :: rest)))).length
      - ('*' :: '*' :: (t ++ ('*' :: '*' :: rest))).length = ws.length := by
    simp only [List.length_append, List.length_cons, List.length_nil]
    omega
  unfold secHeaderLen
  rw [hdw]
  simp only []
  rw [htw]
  rw [if_neg ht, show List.drop t.length (t ++ ('*' :: '*' :: rest)) = '*' :: '*' :: rest from
    List.drop_left t _]
  rw [hlen]
  have hhl : (secHeader e ws t).length = 1 + ws.length + 2 + t.length + 2 := by
    simp only [secHeader, List.length_cons, List.length_append, List.length_nil]
    omega
  rw [hhl]
  rfl

theorem sectionScanF_no_matches (xs : Text) (hxs : ∀ c ∈ xs, c ∉ secEmojis)
    (f pos : Nat) : sectionScanF f xs pos = [] := by
  have h := sectionScanF_skip xs [] hxs f pos
  rw [List.append_nil] at h
  rw [h, sectionScanF_nil]

theorem sectionScanF_header_step (e : Char) (ws t after : Text) (pos : Nat)
    (he : e ∈ secEmojis) (hws : ∀ c ∈ ws, isJsSpace c = true)
    (ht : t ≠ []) (hts : ∀ c ∈ t, c ≠ '*') :
    sectionScanF (secHeader e ws t ++ after).length (secHeader e ws t ++ after) pos
      = ⟨pos, e, trimText t, (secHeader e ws t).length⟩ ::
        sectionScanF after.length after (pos + (secHeader e ws t).length) := by
  have hm := secMatchAt_header e ws t after he hws ht hts
  have hcons : secHeader e ws t ++ after
      = e :: ((ws ++ ('*' :: '*' :: (t ++ ['*', '*']))) ++ after) := by
    simp [secHeader]
  have hflen : (secHeader e ws t ++ after).length
      = ((ws ++ ('*' :: '*' :: (t ++ ['*', '*']))) ++ after).length + 1 := by
    rw [hcons]; rfl
  have hm' : secMatchAt (e :: ((ws ++ ('*' :: '*' :: (t ++ ['*', '*']))) ++ after))
      = some (e, t, (secHeader e ws t).length) := by
    rw [← hcons]; exact hm
  rw [hflen, hcons, sectionScanF_cons_some _ pos hm']
  congr 1
  have hdrop : List.drop ((secHeader e ws t).length - 1)
      ((ws ++ ('*' :: '*' :: (t ++ ['*', '*']))) ++ after) = after := by
    have hl : (secHeader e ws t).length - 1
        = (ws ++ ('*' :: '*' :: (t ++ ['*', '*']))).length := by
      simp [secHeader]
    rw [hl]
    exact List.drop_left _ _
  rw [hdrop]
  apply sectionScanF_eq_of_ge
  · simp [List.length_append]
    omega
  · exact Nat.le_refl _

theorem substringText_first (x y : Text) : substringText (x ++ y) 0 x.length = x := by
  unfold substringText
  rw [List.drop_zero, Nat.sub_zero]
  exact List.take_left _ _

theorem substringText_middle (x y z : Text) :
    substringText (x ++ (y ++ z)) x.length (x.length + y.length) = y := by
  unfold substringText
  rw [List.drop_left, Nat.add_sub_cancel_left]
  exact List.take_left _ _

theorem substringText_last (x y : Text) :
    substringText (x ++ y) x.length (x ++ y).length = y := by
  unfold substringText
  rw [List.drop_left]
  have h : (x ++ y).length - x.length = y.length := by simp
  rw [h]
  exact List.take_length y

/-- Scanning a body of the shape
`pre ++ header1 ++ c1 ++ header2 ++ c2 ++ header3 ++ c3` finds exactly the
three headers, in order, at their positions. -/
theorem three_sections_scan
    (pre c1 c2 c3 t1 t2 t3 ws1 ws2 ws3 : Text) (e1 e2 e3 : Char)
    (he1 : e1 ∈ secEmojis) (he2 : e2 ∈ secEmojis) (he3 : e3 ∈ secEmojis)
    (hw1 : ∀ c ∈ ws1, isJsSpace c = true) (hw2 : ∀ c ∈ ws2, isJsSpace c = true)
    (hw3 : ∀ c ∈ ws3, isJsSpace c = true)
    (ht1 : t1 ≠ []) (ht2 : t2 ≠ []) (ht3 : t3 ≠ [])
    (hs1 : ∀ c ∈ t1, c ≠ '*') (hs2 : ∀ c ∈ t2, c ≠ '*') (hs3 : ∀ c ∈ t3, c ≠ '*')
    (hp : ∀ c ∈ pre, c ∉ secEmojis) (hc1 : ∀ c ∈ c1, c ∉ secEmojis)
    (hc2 : ∀ c ∈ c2, c ∉ secEmojis) (hc3 : ∀ c ∈ c3, c ∉ secEmojis) :
    sectionMatches (pre ++ (secHeader e1 ws1 t1 ++ (c1 ++ (secHeader e2 ws2 t2 ++
        (c2 ++ (secHeader e3 ws3 t3 ++ c3))))))
      = [⟨pre.length, e1, trimText t1, (secHeader e1 ws1 t1).length⟩,
         ⟨pre.length + (secHeader e1 ws1 t1).length + c1.length, e2, trimText t2,
          (secHeader e2 ws2 t2).length⟩,
         ⟨pre.length + (secHeader e1 ws1 t1).length + c1.length
            + (secHeader e2 ws2 t2).length + c2.length, e3, trimText t3,
          (secHeader e3 ws3 t3).length⟩] := by
  unfold sectionMatches
  rw [sectionScanF_skip pre _ hp]
  have hf1 : (pre ++ (secHeader e1 ws1 t1 ++ (c1 ++ (secHeader e2 ws2 t2 ++
      (c2 ++ (secHeader e3 ws3 t3 ++ c3)))))).length - pre.length
      = (secHeader e1 ws1 t1 ++ (c1 ++ (secHeader e2 ws2 t2 ++
        (c2 ++ (secHeader e3 ws3 t3 ++ c3))))).length := by
    simp
  rw [hf1]
  rw [sectionScanF_header_step e1 ws1 t1 _ _ he1 hw1 ht1 hs1]
  rw [sectionScanF_skip c1 _ hc1]
  have hf2 : (c1 ++ (secHeader e2 ws2 t2 ++ (c2 ++ (secHeader e3 ws3 t3 ++ c3)))).length
      - c1.length
      = (secHeader e2 ws2 t2 ++ (c2 ++ (secHeader e3 ws3 t3 ++ c3))).length := by
    simp
  rw [hf2]
  rw [sectionScanF_header_step e2 ws2 t2 _ _ he2 hw2 ht2 hs2]
  rw [sectionScanF_skip c2 _ hc2]
  have hf3 : (c2 ++ (secHeader e3 ws3 t3 ++ c3)).length - c2.length
      = (secHeader e3 ws3 t3 ++ c3).length := by
    simp
  rw [hf3]
  rw [sectionScanF_header_step e3 ws3 t3 _ _ he3 hw3 ht3 hs3]
  rw [sectionScanF_no_matches c3 hc3]
  simp only [List.cons.injEq, SecMatch.mk.injEq, and_true, true_and]
  omega

theorem secMatchAt_emoji {cs : Text} {e : Char} {ttl : Text} {len : Nat}
    (h : secMatchAt cs = some (e, ttl, len)) : e ∈ secEmojis := by
  cases cs with
  | nil => simp [secMatchAt] at h
  | cons c rest =>
    simp only [secMatchAt] at h
    by_cases hmem : c ∈ secEmojis
    · rw [if_pos hmem] at h
      cases hsh : secHeaderLen rest with
      | none => rw [hsh] at h; simp at h
      | some p =>
        rw [hsh] at h
        simp only [Option.map_some', Option.some.injEq, Prod.mk.injEq] at h
        rw [← h.1]
        exact hmem
    · rw [if_neg hmem] at h
      simp at h

theorem sectionScanF_emoji :
    ∀ (f : Nat) (cs : Text) (pos : Nat) (m : SecMatch),
      m ∈ sectionScanF f cs pos → m.emoji ∈ secEmojis := by
  intro f
  induction f with
  | zero => intro cs pos m hm; cases cs <;> simp [sectionScanF] at hm
  | succ f ih =>
    intro cs pos m hm
    cases cs with
    | nil => simp [sectionScanF] at hm
    | cons c rest =>
      rw [sectionScanF] at hm
      cases hsec : secMatchAt (c :: rest) with
      | some trip =>
        obtain ⟨e, ttl, len⟩ := trip
        rw [hsec] at hm
        rcases List.mem_cons.1 hm with rfl | hm
        · exact secMatchAt_emoji hsec
        · exact ih _ _ m hm
      | none =>
        rw [hsec] at hm
        exact ih _ _ m hm

/-- Claim C7 (counterexample): the claim's existential is false — no scheme
body ever produces a section with the `"info"` class, because the section
regex captures only the four known emojis and each of them is in the
registry; in particular a body whose header uses the unknown 🎯 emoji
yields no section match at all and falls back to the unstructured
rendering. -/
theorem unknown_emoji_info_cex :
    (¬ ∃ (body : Text) (m : SecMatch), m ∈ sectionMatches body ∧
        (sectionMetaFor m.emoji).cls = "info".data) ∧
    sectionMatches ([Char.ofNat 0x1F3AF] ++ " **Goal**\ndetails".data) = [] ∧
    parseSchemeBody ([Char.ofNat 0x1F3AF] ++ " **Goal**\ndetails".data)
      = simpleBodyHtml (formatResponse ([Char.ofNat 0x1F3AF] ++ " **Goal**\ndetails".data)) := by
  refine ⟨?_, by decide, by decide⟩
  rintro ⟨body, m, hm, hcls⟩
  have he := sectionScanF_emoji _ _ _ m hm
  simp only [secEmojis, List.mem_cons, List.not_mem_nil, or_false] at he
  rcases he with he | he | he | he <;> rw [he] at hcls <;> revert hcls <;> decide

/-- Claim C7 (amended): the generic `"info"` fallback of the registry
lookup is unreachable: every section match the splitter produces carries
one of the four known emojis, whose registry class is `why`, `benefits`,
`eligibility` or `apply` — never `"info"`.  A header with an emoji outside
the known set is simply not matched as a section header. -/
theorem unknown_emoji_never_info (body : Text) (m : SecMatch)
    (hm : m ∈ sectionMatches body) :
    (sectionMetaFor m.emoji).cls ≠ "info".data ∧
    (sectionMetaFor m.emoji).cls
      ∈ ["why".data, "benefits".data, "eligibility".data, "apply".data] := by
  have he := sectionScanF_emoji _ _ _ m hm
  simp only [secEmojis, List.mem_cons, List.not_mem_nil, or_false] at he
  rcases he with he | he | he | he <;> rw [he] <;> exact ⟨by decide, by decide⟩

/-- Witness for the amended C7: the 💡 header in a concrete body is matched
and classified `why`, not `info`. -/
theorem unknown_emoji_never_info_witness :
    (sectionMetaFor (SecMatch.mk 0 (Char.ofNat 0x1F4A1) "W".data 7).emoji).cls
      ≠ "info".data :=
  (unknown_emoji_never_info (emLightbulbT ++ " **W** x".data)
    (SecMatch.mk 0 (Char.ofNat 0x1F4A1) "W".data 7) (by decide)).1

/-- Claim C3 (counterexample): in a concrete three-header body the first
section's rendered content is the trimmed text `"a"`, while the exact text
between the end of its header and the start of the next is `" a \n"` — the
code trims, so the content is not exactly the text between the headers. -/
theorem section_exact_span_cex :
    (sectionMatches bodyTrimCex).length = 3 ∧
    sectionContentAt bodyTrimCex (sectionMatches bodyTrimCex) 0 = "a".data ∧
    specSectionSpan bodyTrimCex (sectionMatches bodyTrimCex) 0 = " a \n".data ∧
    sectionContentAt bodyTrimCex (sectionMatches bodyTrimCex) 0
      ≠ specSectionSpan bodyTrimCex (sectionMatches bodyTrimCex) 0 :=
  ⟨by decide, by decide, by decide, by decide⟩

/-- Claim C3 (amended): for every scheme body consisting of three
emoji-tagged headers (known emoji, whitespace, bold nonempty star-free
title) with header-free surrounding text, `parseSchemeBody` returns exactly
three sections in the order they appear, each section's content being the
whitespace-trimmed text between the end of its own header and the start of
the next header (or end of text for the last), and text preceding the
first header is emitted as an untagged leading block. -/
theorem three_sections_order_content
    (pre c1 c2 c3 t1 t2 t3 ws1 ws2 ws3 : Text) (e1 e2 e3 : Char)
    (he1 : e1 ∈ secEmojis) (he2 : e2 ∈ secEmojis) (he3 : e3 ∈ secEmojis)
    (hw1 : ∀ c ∈ ws1, isJsSpace c = true) (hw2 : ∀ c ∈ ws2, isJsSpace c = true)
    (hw3 : ∀ c ∈ ws3, isJsSpace c = true)
    (ht1 : t1 ≠ []) (ht2 : t2 ≠ []) (ht3 : t3 ≠ [])
    (hs1 : ∀ c ∈ t1, c ≠ '*') (hs2 : ∀ c ∈ t2, c ≠ '*') (hs3 : ∀ c ∈ t3, c ≠ '*')
    (hp : ∀ c ∈ pre, c ∉ secEmojis) (hc1 : ∀ c ∈ c1, c ∉ secEmojis)
    (hc2 : ∀ c ∈ c2, c ∉ secEmojis) (hc3 : ∀ c ∈ c3, c ∉ secEmojis)
    (body : Text)
    (hbody : body = pre ++ (secHeader e1 ws1 t1 ++ (c1 ++ (secHeader e2 ws2 t2 ++
      (c2 ++ (secHeader e3 ws3 t3 ++ c3)))))) :
    sectionMatches body
      = [⟨pre.length, e1, trimText t1, (secHeader e1 ws1 t1).length⟩,
         ⟨pre.length + (secHeader e1 ws1 t1).length + c1.length, e2, trimText t2,
          (secHeader e2 ws2 t2).length⟩,
         ⟨pre.length + (secHeader e1 ws1 t1).length + c1.length
            + (secHeader e2 ws2 t2).length + c2.length, e3, trimText t3,
          (secHeader e3 ws3 t3).length⟩] ∧
    sectionContentAt body (sectionMatches body) 0 = trimText c1 ∧
    sectionContentAt body (sectionMatches body) 1 = trimText c2 ∧
    sectionContentAt body (sectionMatches body) 2 = trimText c3 ∧
    parseSchemeBody body
      = (if trimText pre = [] then [] else simpleBodyHtml (formatResponse (trimText pre))) ++
        (sectionHtml (sectionMetaFor e1) (trimText t1) (formatResponse (trimText c1)) ++
         (sectionHtml (sectionMetaFor e2) (trimText t2) (formatResponse (trimText c2)) ++
          sectionHtml (sectionMetaFor e3) (trimText t3) (formatResponse (trimText c3)))) := by
  subst hbody
  have hscan := three_sections_scan pre c1 c2 c3 t1 t2 t3 ws1 ws2 ws3 e1 e2 e3
    he1 he2 he3 hw1 hw2 hw3 ht1 ht2 ht3 hs1 hs2 hs3 hp hc1 hc2 hc3
  have hsub0 : substringText
      (pre ++ (secHeader e1 ws1 t1 ++ (c1 ++ (secHeader e2 ws2 t2 ++
        (c2 ++ (secHeader e3 ws3 t3 ++ c3))))))
      (pre.length + (secHeader e1 ws1 t1).length)
      (pre.length + (secHeader e1 ws1 t1).length + c1.length) = c1 := by
    have hb : pre ++ (secHeader e1 ws1 t1 ++ (c1 ++ (secHeader e2 ws2 t2 ++
        (c2 ++ (secHeader e3 ws3 t3 ++ c3)))))
        = (pre ++ secHeader e1 ws1 t1) ++ (c1 ++ (secHeader e2 ws2 t2 ++
          (c2 ++ (secHeader e3 ws3 t3 ++ c3)))) := by
      simp [List.append_assoc]
    have hlen : pre.length + (secHeader e1 ws1 t1).length
        = (pre ++ secHeader e1 ws1 t1).length := by simp
    rw [hb, hlen]
    exact substringText_middle _ _ _
  have hsub1 : substringText
      (pre ++ (secHeader e1 ws1 t1 ++ (c1 ++ (secHeader e2 ws2 t2 ++
        (c2 ++ (secHeader e3 ws3 t3 ++ c3))))))
      (pre.length + (secHeader e1 ws1 t1).length + c1.length + (secHeader e2 ws2 t2).length)
      (pre.length + (secHeader e1 ws1 t1).length + c1.length + (secHeader e2 ws2 t2).length
        + c2.length) = c2 := by
    have hb : pre ++ (secHeader e1 ws1 t1 ++ (c1 ++ (secHeader e2 ws2 t2 ++
        (c2 ++ (secHeader e3 ws3 t3 ++ c3)))))
        = (((pre ++ secHeader e1 ws1 t1) ++ c1) ++ secHeader e2 ws2 t2) ++
          (c2 ++ (secHeader e3 ws3 t3 ++ c3)) := by
      simp [List.append_assoc]
    have hlen : pre.length + (secHeader e1 ws1 t1).length + c1.length
          + (secHeader e2 ws2 t2).length
        = ((((pre ++ secHeader e1 ws1 t1) ++ c1) ++ secHeader e2 ws2 t2)).length := by
      simp [List.length_append]
      omega
    rw [hb, hlen]
    exact substringText_middle _ _ _
  have hsub2 : substringText
      (pre ++ (secHeader e1 ws1 t1 ++ (c1 ++ (secHeader e2 ws2 t2 ++
        (c2 ++ (secHeader e3 ws3 t3 ++ c3))))))
      (pre.length + (secHeader e1 ws1 t1).length + c1.length + (secHeader e2 ws2 t2).length
        + c2.length + (secHeader e3 ws3 t3).length)
      (pre ++ (secHeader e1 ws1 t1 ++ (c1 ++ (secHeader e2 ws2 t2 ++
        (c2 ++ (secHeader e3 ws3 t3 ++ c3)))))).length = c3 := by
    have hb : pre ++ (secHeader e1 ws1 t1 ++ (c1 ++ (secHeader e2 ws2 t2 ++
        (c2 ++ (secHeader e3 ws3 t3 ++ c3)))))
        = ((((((pre ++ secHeader e1 ws1 t1) ++ c1) ++ secHeader e2 ws2 t2) ++ c2)
            ++ secHeader e3 ws3 t3)) ++ c3 := by
      simp [List.append_assoc]
    have hlen : pre.length + (secHeader e1 ws1 t1).length + c1.length
          + (secHeader e2 ws2 t2).length + c2.length + (secHeader e3 ws3 t3).length
        = ((((((pre ++ secHeader e1 ws1 t1) ++ c1) ++ secHeader e2 ws2 t2) ++ c2)
            ++ secHeader e3 ws3 t3)).length := by
      simp [List.length_append]
      omega
    rw [hb, hlen]
    exact substringText_last _ _
  refine ⟨hscan, ?_, ?_, ?_, ?_⟩
  · rw [hscan]
    simp only [sectionContentAt, List.getElem?_cons_zero, List.getElem?_cons_succ]
    rw [hsub0]
  · rw [hscan]
    simp only [sectionContentAt, List.getElem?_cons_zero, List.getElem?_cons_succ]
    rw [hsub1]
  · rw [hscan]
    simp only [sectionContentAt, List.getElem?_cons_zero, List.getElem?_cons_succ,
      List.getElem?_nil]
    rw [hsub2]
  · unfold parseSchemeBody
    rw [hscan]
    simp only [renderSections]
    have hsubpre : substringText
        (pre ++ (secHeader e1 ws1 t1 ++ (c1 ++ (secHeader e2 ws2 t2 ++
          (c2 ++ (secHeader e3 ws3 t3 ++ c3)))))) 0 pre.length = pre :=
      substringText_first _ _
    rw [hsub0, hsub1, hsub2]
    by_cases hpre0 : pre = []
    · subst hpre0
      simp [trimText]
    · have hl : 0 < pre.length := List.length_pos.2 hpre0
      rw [if_pos hl, hsubpre]

/-- Witness for the amended C3 on a concrete three-header body. -/
theorem three_sections_order_content_witness :
    sectionContentAt demoSchemeBody (sectionMatches demoSchemeBody) 0 = "Good fit.".data ∧
    sectionContentAt demoSchemeBody (sectionMatches demoSchemeBody) 2 = "All.".data := by
  have h := three_sections_order_content "Note.\n".data "\nGood fit.\n".data
    "\nCash.\n".data "\nAll.".data "Why".data "Key Benefits".data "Eligibility".data
    [' '] [' '] [' '] (Char.ofNat 0x1F4A1) (Char.ofNat 0x1F4CB) (Char.ofNat 0x2705)
    (by decide) (by decide) (by decide) (by decide) (by decide) (by decide)
    (by decide) (by decide) (by decide) (by decide) (by decide) (by decide)
    (by decide) (by decide) (by decide) (by decide) demoSchemeBody rfl
  refine ⟨?_, ?_⟩
  · rw [h.2.1]; decide
  · rw [h.2.2.2.1]; decide

/-- Witness for the amended C4 on a concrete body. -/
theorem match_score_extract_remove_witness :
    extractScore ("Benefits listed.\n".data ++ (score73marker ++ "\nApply online.".data))
        = some 73 ∧
    removeScores ("Benefits listed.\n".data ++ (score73marker ++ "\nApply online.".data))
        = "Benefits listed.\n".data ++ "\nApply online.".data := by
  have h := match_score_extract_remove "Benefits listed.\n".data "\nApply online.".data
    (by decide) (by decide)
  exact ⟨h.1, h.2.1⟩

theorem safeChar_mem {c : Char} (h : safeChar c = true) :
    c ∈ lettersList ∨ c ∈ safePunct := by
  unfold safeChar at h
  simpa using h

theorem escapeAmp_safe {t : Text} (ht : ∀ c ∈ t, safeChar c = true) :
    ∀ c ∈ escapeAmp t, safeChar c = true := by
  intro c hc
  rcases List.mem_flatMap.1 hc with ⟨a, ha, hfa⟩
  by_cases hamp : a = '&'
  · rw [if_pos hamp] at hfa
    exact (by decide : ∀ x ∈ "&amp;".data, safeChar x = true) c hfa
  · rw [if_neg hamp] at hfa
    simp only [List.mem_singleton] at hfa
    subst hfa
    exact ht c ha

theorem escapeLt_safe {t : Text} (ht : ∀ c ∈ t, safeChar c = true) :
    ∀ c ∈ escapeLt t, safeChar c = true ∧ c ≠ '<' := by
  intro c hc
  rcases List.mem_flatMap.1 hc with ⟨a, ha, hfa⟩
  by_cases hlt : a = '<'
  · rw [if_pos hlt] at hfa
    exact (by decide : ∀ x ∈ "&lt;".data, safeChar x = true ∧ x ≠ '<') c hfa
  · rw [if_neg hlt] at hfa
    simp only [List.mem_singleton] at hfa
    subst hfa
    exact ⟨ht c ha, hlt⟩

theorem escapeGt_safe {t : Text} (ht : ∀ c ∈ t, safeChar c = true ∧ c ≠ '<') :
    ∀ c ∈ escapeGt t, safeChar c = true ∧ c ≠ '<' ∧ c ≠ '>' := by
  intro c hc
  rcases List.mem_flatMap.1 hc with ⟨a, ha, hfa⟩
  by_cases hgt : a = '>'
  · rw [if_pos hgt] at hfa
    exact (by decide : ∀ x ∈ "&gt;".data, safeChar x = true ∧ x ≠ '<' ∧ x ≠ '>') c hfa
  · rw [if_neg hgt] at hfa
    simp only [List.mem_singleton] at hfa
    subst hfa
    exact ⟨(ht c ha).1, (ht c ha).2, hgt⟩

theorem escapeHtml_safe {t : Text} (ht : ∀ c ∈ t, safeChar c = true) :
    ∀ c ∈ escapeHtmlText t, safeChar c = true ∧ c ≠ '<' ∧ c ≠ '>' :=
  escapeGt_safe (escapeLt_safe (escapeAmp_safe ht))

theorem esc_char_facts {c : Char}
    (h : safeChar c = true ∧ c ≠ '<' ∧ c ≠ '>') :
    c ≠ '\n' ∧ c ≠ '*' ∧ c ≠ '[' ∧ c ≠ '#' ∧ c ≠ '-' ∧ c ≠ Char.ofNat 0x2022 ∧
      c.isDigit = false ∧ c ≠ '<' ∧ c ≠ '>' := by
  obtain ⟨hs, hlt, hgt⟩ := h
  rcases safeChar_mem hs with hm | hm
  · have := (by decide : ∀ x ∈ lettersList, x ≠ '\n' ∧ x ≠ '*' ∧ x ≠ '[' ∧ x ≠ '#' ∧
      x ≠ '-' ∧ x ≠ Char.ofNat 0x2022 ∧ x.isDigit = false) c hm
    exact ⟨this.1, this.2.1, this.2.2.1, this.2.2.2.1, this.2.2.2.2.1,
      this.2.2.2.2.2.1, this.2.2.2.2.2.2, hlt, hgt⟩
  · have := (by decide : ∀ x ∈ safePunct, x ≠ '\n' ∧ x ≠ '*' ∧ x ≠ '[' ∧ x ≠ '#' ∧
      x ≠ '-' ∧ x ≠ Char.ofNat 0x2022 ∧ x.isDigit = false) c hm
    exact ⟨this.1, this.2.1, this.2.2.1, this.2.2.2.1, this.2.2.2.2.1,
      this.2.2.2.2.2.1, this.2.2.2.2.2.2, hlt, hgt⟩

theorem escape_keeps_letter {t : Text} {c : Char} (hct : c ∈ t) (hl : c ∈ lettersList) :
    c ∈ escapeHtmlText t := by
  have hfacts := (by decide : ∀ x ∈ lettersList, x ≠ '&' ∧ x ≠ '<' ∧ x ≠ '>') c hl
  have h1 : c ∈ escapeAmp t :=
    List.mem_flatMap.2 ⟨c, hct, by rw [if_neg hfacts.1]; simp⟩
  have h2 : c ∈ escapeLt (escapeAmp t) :=
    List.mem_flatMap.2 ⟨c, h1, by rw [if_neg hfacts.2.1]; simp⟩
  exact List.mem_flatMap.2 ⟨c, h2, by rw [if_neg hfacts.2.2]; simp⟩


theorem splitOnNl_no_nl {cs : Text} (h : ∀ c ∈ cs, c ≠ '\n') : splitOnNl cs = [cs] := by
  induction cs with
  | nil => rfl
  | cons c rest ih =>
    unfold splitOnNl
    rw [if_neg (h c (by simp))]
    rw [ih (fun x hx => h x (by simp [hx]))]

theorem intercalate_single (s x : Text) : List.intercalate s [x] = x := by
  simp [List.intercalate]

theorem mapLines_id (f : Text → Text) {cs : Text} (hnl : ∀ c ∈ cs, c ≠ '\n')
    (hf : f cs = cs) : mapLines f cs = cs := by
  unfold mapLines
  rw [splitOnNl_no_nl hnl]
  simp [hf, intercalate_single]

theorem hrLine_id {l : Text} (h : ∃ c ∈ l, c ≠ '-') : hrLine l = l := by
  unfold hrLine
  rcases h with ⟨c, hc, hne⟩
  have hall : l.all (fun x => decide (x = '-')) = false := by
    rcases hall : l.all (fun x => decide (x = '-')) with _ | _
    · rfl
    · exact absurd (by simpa using List.all_eq_true.1 hall c hc) (by simp [hne])
  simp [hall]

theorem headerLine_id (mk o cl : Text) {l : Text} (m2 : Text) (hmk : mk = '#' :: m2)
    (h : ∀ c ∈ l, c ≠ '#') : headerLine mk o cl l = l := by
  unfold headerLine
  subst hmk
  cases l with
  | nil => simp [List.isPrefixOf]
  | cons c rest =>
    have hc : ('#' == c) = false := by
      simp only [beq_eq_false_iff_ne, ne_eq]
      exact fun he => h c (by simp) he.symm
    simp [List.isPrefixOf, hc]

theorem bulletLine_id {l : Text}
    (h : ∀ c ∈ l, c ≠ '-' ∧ c ≠ Char.ofNat 0x2022) : bulletLine l = l := by
  unfold bulletLine
  split
  · next c rest =>
    rw [if_neg]
    simp only [Bool.and_eq_true, Bool.or_eq_true, decide_eq_true_eq, not_and, not_or]
    intro hor
    exact absurd hor (by push_neg; exact ⟨(h c (by simp)).1, (h c (by simp)).2⟩)
  · rfl

theorem numberedLine_id {l : Text} (h : ∀ c ∈ l, c.isDigit = false) :
    numberedLine l = l := by
  unfold numberedLine
  have hds : l.takeWhile (fun c => c.isDigit) = [] := by
    cases l with
    | nil => rfl
    | cons c rest => simp [List.takeWhile_cons, h c (by simp)]
  simp [hds]

theorem collapseNlM_none {c : Char} {rest : Text} (h : c ≠ '\n') :
    collapseNlM (c :: rest) = none := by
  unfold collapseNlM
  simp [List.takeWhile_cons, h]

theorem linkM_none {c : Char} {rest : Text} (h : c ≠ '[') :
    linkM (c :: rest) = none := by
  unfold linkM
  split <;> simp_all

theorem boldM_none {c : Char} {rest : Text} (h : c ≠ '*') :
    boldM (c :: rest) = none := by
  unfold boldM
  split <;> simp_all

theorem italicM_none (prev : Option Char) {c : Char} {rest : Text} (h : c ≠ '*') :
    italicM prev (c :: rest) = none := by
  unfold italicM
  split <;> simp_all

theorem nnM_none {c : Char} {rest : Text} (h : c ≠ '\n') :
    nnM (c :: rest) = none := by
  unfold nnM
  split <;> simp_all

theorem brM_none {c : Char} {rest : Text} (h : c ≠ '\n') :
    brM (c :: rest) = none := by
  unfold brM
  split <;> simp_all

theorem liBlockLen_none {c : Char} {rest : Text} (h : c ≠ '<' ∧ c ≠ '\n') :
    liBlockLen (c :: rest) = none := by
  unfold liBlockLen
  have hline : (c :: rest).takeWhile (fun x => decide ¬x = '\n')
      = c :: rest.takeWhile (fun x => decide ¬x = '\n') := by
    simp [List.takeWhile_cons, h.2]
  rw [hline]
  have hpre : "<li>".data.isPrefixOf (c :: rest.takeWhile (fun x => decide ¬x = '\n'))
      = false := by
    have hc : ('<' == c) = false := by
      simp only [beq_eq_false_iff_ne, ne_eq]
      exact fun he => h.1 he.symm
    simp [List.isPrefixOf, hc]
  simp only [hpre]
  rfl

theorem liWrapM_none {c : Char} {rest : Text} (h : c ≠ '<' ∧ c ≠ '\n') :
    liWrapM (c :: rest) = none := by
  unfold liWrapM liRunLen liRunLenF
  rw [liBlockLen_none h]


theorem drop_takeWhile_len (p : Char → Bool) (l : Text) :
    l.drop (l.takeWhile p).length = l.dropWhile p := by
  induction l with
  | nil => rfl
  | cons a l ih =>
    by_cases hp : p a = true
    · simp [List.takeWhile_cons, List.dropWhile_cons, hp, ih]
    · simp [List.takeWhile_cons, List.dropWhile_cons, hp]

theorem dropWhile_append_ne_nil (p : Char → Bool) {xs : Text} (ys : Text)
    (h : xs.dropWhile p ≠ []) :
    (xs ++ ys).dropWhile p = xs.dropWhile p ++ ys := by
  induction xs with
  | nil => exact absurd rfl h
  | cons a xs ih =>
    by_cases hp : p a = true
    · rw [List.cons_append, List.dropWhile_cons, if_pos hp]
      rw [List.dropWhile_cons, if_pos hp] at h ⊢
      exact ih h
    · rw [List.cons_append, List.dropWhile_cons, if_neg hp]
      rw [List.dropWhile_cons, if_neg hp]
      rfl

theorem dropWhile_mem {p : Char → Bool} {l : Text} {c : Char} {r : Text}
    (h : l.dropWhile p = c :: r) : c ∈ l ∧ p c = false := by
  induction l with
  | nil => simp at h
  | cons a l ih =>
    by_cases hp : p a = true
    · rw [List.dropWhile_cons, if_pos hp] at h
      obtain ⟨hm, hpc⟩ := ih h
      exact ⟨by simp [hm], hpc⟩
    · rw [List.dropWhile_cons, if_neg hp] at h
      rcases h with ⟨rfl, rfl⟩
      exact ⟨by simp, by simpa using hp⟩
  
theorem isSuffix_append_cases {l xs ys : Text} (h : l <:+ xs ++ ys) :
    (∃ x', x' <:+ xs ∧ x' ≠ [] ∧ l = x' ++ ys) ∨ l <:+ ys := by
  induction xs with
  | nil => right; simpa using h
  | cons a xs ih =>
    rw [List.cons_append, List.suffix_cons_iff] at h
    rcases h with rfl | h
    · left
      exact ⟨a :: xs, List.suffix_refl _, by simp, by rw [List.cons_append]⟩
    · rcases ih h with ⟨x', hx, hne, rfl⟩ | h2
      · left
        exact ⟨x', hx.trans (List.suffix_cons a xs), hne, rfl⟩
      · right
        exact h2


theorem suffix_of_wrap {e l : Text} (he : ∀ c ∈ e, c ≠ '<')
    (hl : l <:+ ('<' :: 'p' :: '>' :: (e ++ ['<', '/', 'p', '>']))) (hne : l ≠ []) :
    l = '<' :: 'p' :: '>' :: (e ++ ['<', '/', 'p', '>']) ∨
    l = ['<', '/', 'p', '>'] ∨
    (∃ c r, l = c :: r ∧ c ≠ '<') := by
  rw [List.suffix_cons_iff] at hl
  rcases hl with rfl | hl
  · exact Or.inl rfl
  rw [List.suffix_cons_iff] at hl
  rcases hl with rfl | hl
  · exact Or.inr (Or.inr ⟨'p', _, rfl, by decide⟩)
  rw [List.suffix_cons_iff] at hl
  rcases hl with rfl | hl
  · exact Or.inr (Or.inr ⟨'>', _, rfl, by decide⟩)
  rcases isSuffix_append_cases hl with ⟨x', hx, hxe, rfl⟩ | hl2
  · obtain ⟨c, r, rfl⟩ := List.exists_cons_of_ne_nil hxe
    exact Or.inr (Or.inr ⟨c, r ++ ['<', '/', 'p', '>'], by rw [List.cons_append],
      he c (hx.subset (by simp))⟩)
  · rw [List.suffix_cons_iff] at hl2
    rcases hl2 with rfl | hl2
    · exact Or.inr (Or.inl rfl)
    rw [List.suffix_cons_iff] at hl2
    rcases hl2 with rfl | hl2
    · exact Or.inr (Or.inr ⟨'/', _, rfl, by decide⟩)
    rw [List.suffix_cons_iff] at hl2
    rcases hl2 with rfl | hl2
    · exact Or.inr (Or.inr ⟨'p', _, rfl, by decide⟩)
    rw [List.suffix_cons_iff] at hl2
    rcases hl2 with rfl | hl2
    · exact Or.inr (Or.inr ⟨'>', _, rfl, by decide⟩)
    · simp only [List.suffix_nil] at hl2
      exact absurd hl2 hne

theorem emptyPM_none_head {c : Char} {rest : Text} (h : c ≠ '<') :
    emptyPM (c :: rest) = none := by
  unfold emptyPM
  split <;> simp_all

theorem pOpenHM_none_head {c : Char} {rest : Text} (h : c ≠ '<') :
    pOpenHM (c :: rest) = none := by
  unfold pOpenHM
  split <;> simp_all

theorem hClosePM_none_head {c : Char} {rest : Text} (h : c ≠ '<') :
    hClosePM (c :: rest) = none := by
  unfold hClosePM
  split <;> simp_all

theorem pOpenUlM_none_head {c : Char} {rest : Text} (h : c ≠ '<') :
    pOpenUlM (c :: rest) = none := by
  unfold pOpenUlM
  split <;> simp_all

theorem ulClosePM_none_head {c : Char} {rest : Text} (h : c ≠ '<') :
    ulClosePM (c :: rest) = none := by
  unfold ulClosePM
  split <;> simp_all

theorem brHM_none_head {c : Char} {rest : Text} (h : c ≠ '<') :
    brHM (c :: rest) = none := by
  unfold brHM
  split <;> simp_all

theorem hBrM_none_head {c : Char} {rest : Text} (h : c ≠ '<') :
    hBrM (c :: rest) = none := by
  unfold hBrM
  split <;> simp_all

theorem brBrM_none_head {c : Char} {rest : Text} (h : c ≠ '<') :
    brBrM (c :: rest) = none := by
  unfold brBrM
  split <;> simp_all

theorem litM_none_head {pat : Text} {p2 : Text} (rep : Text) {c : Char} {rest : Text}
    (hpat : pat = '<' :: p2) (h : c ≠ '<') : litM pat rep (c :: rest) = none := by
  unfold litM
  subst hpat
  have hc : ('<' == c) = false := by
    simp only [beq_eq_false_iff_ne, ne_eq]
    exact fun he => h he.symm
  simp [List.isPrefixOf, hc]


theorem emptyPM_wrap_none {e : Text} (hlt : ∀ c ∈ e, c ≠ '<')
    {a : Char} (ha : a ∈ e) (haw : isJsSpace a = false) :
    emptyPM ('<' :: 'p' :: '>' :: (e ++ ['<', '/', 'p', '>'])) = none := by
  have hdnn : e.dropWhile isJsSpace ≠ [] := by
    intro hnil
    have := (List.dropWhile_eq_nil_iff.1 hnil) a ha
    simp [haw] at this
  obtain ⟨h0, r0, hd⟩ : ∃ h0 r0, e.dropWhile isJsSpace = h0 :: r0 := by
    rcases hx : e.dropWhile isJsSpace with _ | ⟨x, xs⟩
    · exact absurd hx hdnn
    · exact ⟨x, xs, rfl⟩
  have hh0 := dropWhile_mem hd
  have hbeq : ('<' == h0) = false := by
    simp only [beq_eq_false_iff_ne, ne_eq]
    exact fun heq => hlt h0 hh0.1 heq.symm
  unfold emptyPM
  simp only [drop_takeWhile_len, dropWhile_append_ne_nil isJsSpace _ hdnn, hd,
    List.cons_append]
  simp [List.isPrefixOf, hbeq]

theorem pOpenHM_wrap_none {e : Text} (hlt : ∀ c ∈ e, c ≠ '<')
    {a : Char} (ha : a ∈ e) (haw : isJsSpace a = false) :
    pOpenHM ('<' :: 'p' :: '>' :: (e ++ ['<', '/', 'p', '>'])) = none := by
  have hdnn : e.dropWhile isJsSpace ≠ [] := by
    intro hnil
    have := (List.dropWhile_eq_nil_iff.1 hnil) a ha
    simp [haw] at this
  obtain ⟨h0, r0, hd⟩ : ∃ h0 r0, e.dropWhile isJsSpace = h0 :: r0 := by
    rcases hx : e.dropWhile isJsSpace with _ | ⟨x, xs⟩
    · exact absurd hx hdnn
    · exact ⟨x, xs, rfl⟩
  have hh0 := dropWhile_mem hd
  have hne : h0 ≠ '<' := hlt h0 hh0.1
  unfold pOpenHM
  simp only [drop_takeWhile_len, dropWhile_append_ne_nil isJsSpace _ hdnn, hd,
    List.cons_append]
  split <;> simp_all

theorem pOpenUlM_wrap_none {e : Text} (hlt : ∀ c ∈ e, c ≠ '<')
    {a : Char} (ha : a ∈ e) (haw : isJsSpace a = false) :
    pOpenUlM ('<' :: 'p' :: '>' :: (e ++ ['<', '/', 'p', '>'])) = none := by
  have hdnn : e.dropWhile isJsSpace ≠ [] := by
    intro hnil
    have := (List.dropWhile_eq_nil_iff.1 hnil) a ha
    simp [haw] at this
  obtain ⟨h0, r0, hd⟩ : ∃ h0 r0, e.dropWhile isJsSpace = h0 :: r0 := by
    rcases hx : e.dropWhile isJsSpace with _ | ⟨x, xs⟩
    · exact absurd hx hdnn
    · exact ⟨x, xs, rfl⟩
  have hh0 := dropWhile_mem hd
  have hbeq : ('<' == h0) = false := by
    simp only [beq_eq_false_iff_ne, ne_eq]
    exact fun heq => hlt h0 hh0.1 heq.symm
  unfold pOpenUlM
  simp only [drop_takeWhile_len, dropWhile_append_ne_nil isJsSpace _ hdnn, hd,
    List.cons_append]
  simp [List.isPrefixOf, hbeq]

theorem litM_pbr_wrap_none {e : Text} (hlt : ∀ c ∈ e, c ≠ '<')
    {a : Char} (ha : a ∈ e) :
    litM "<p><br>".data "<p>".data
      ('<' :: 'p' :: '>' :: (e ++ ['<', '/', 'p', '>'])) = none := by
  obtain ⟨c0, e', rfl⟩ :=
    List.exists_cons_of_ne_nil (List.ne_nil_of_mem ha)
  have hbeq : ('<' == c0) = false := by
    simp only [beq_eq_false_iff_ne, ne_eq]
    exact fun heq => hlt c0 (by simp) heq.symm
  unfold litM
  simp [List.isPrefixOf, hbeq]

/-- C6: In formatResponse, the HTML escaping of the characters amp, lt, gt
is the first rewrite applied to the input and runs exactly once, before any
rewrite that introduces tags: for any input consisting of letters and safe
punctuation (a set that includes the three HTML-special characters) with at
least one letter, the whole pipeline returns exactly the paragraph wrapping
of a single application of escapeHtmlText, so no character of the input is
ever escaped twice. -/
theorem escape_first_and_once (t : Text) (hsafe : ∀ c ∈ t, safeChar c = true)
    (halpha : ∃ c ∈ t, c ∈ lettersList) :
    formatResponse t = "<p>".data ++ escapeHtmlText t ++ "</p>".data := by
  have hE := escapeHtml_safe hsafe
  have hF : ∀ c ∈ escapeHtmlText t,
      c ≠ '\n' ∧ c ≠ '*' ∧ c ≠ '[' ∧ c ≠ '#' ∧ c ≠ '-' ∧ c ≠ Char.ofNat 0x2022 ∧
        c.isDigit = false ∧ c ≠ '<' ∧ c ≠ '>' :=
    fun c hc => esc_char_facts (hE c hc)
  obtain ⟨a, hat, hal⟩ := halpha
  have haE : a ∈ escapeHtmlText t := escape_keeps_letter hat hal
  have haf := (by decide : ∀ x ∈ lettersList,
    isJsSpace x = false ∧ x ≠ '-' ∧ x ≠ '<') a hal
  have hnl : ∀ c ∈ escapeHtmlText t, c ≠ '\n' := fun c hc => (hF c hc).1
  have hlt : ∀ c ∈ escapeHtmlText t, c ≠ '<' := fun c hc => (hF c hc).2.2.2.2.2.2.2.1
  -- identities of the markdown passes on the escaped text
  have id_hr : mapLines hrLine (escapeHtmlText t) = escapeHtmlText t :=
    mapLines_id _ hnl (hrLine_id ⟨a, haE, haf.2.1⟩)
  have id_nl3 : rewriteAll collapseNlM (escapeHtmlText t) = escapeHtmlText t := by
    apply rewriteAll_id
    intro l hl hne
    obtain ⟨c, r, rfl⟩ := List.exists_cons_of_ne_nil hne
    exact collapseNlM_none (hnl c (hl.subset (by simp)))
  have id_link : rewriteAll linkM (escapeHtmlText t) = escapeHtmlText t := by
    apply rewriteAll_id
    intro l hl hne
    obtain ⟨c, r, rfl⟩ := List.exists_cons_of_ne_nil hne
    exact linkM_none (hF c (hl.subset (by simp))).2.2.1
  have id_h3 : mapLines (headerLine "### ".data "<h3>".data "</h3>".data)
      (escapeHtmlText t) = escapeHtmlText t :=
    mapLines_id _ hnl (headerLine_id _ _ _ "## ".data rfl
      (fun c hc => (hF c hc).2.2.2.1))
  have id_h2 : mapLines (headerLine "## ".data "<h2>".data "</h2>".data)
      (escapeHtmlText t) = escapeHtmlText t :=
    mapLines_id _ hnl (headerLine_id _ _ _ "# ".data rfl
      (fun c hc => (hF c hc).2.2.2.1))
  have id_h1 : mapLines (headerLine "# ".data "<h1>".data "</h1>".data)
      (escapeHtmlText t) = escapeHtmlText t :=
    mapLines_id _ hnl (headerLine_id _ _ _ " ".data rfl
      (fun c hc => (hF c hc).2.2.2.1))
  have id_bold : rewriteAll boldM (escapeHtmlText t) = escapeHtmlText t := by
    apply rewriteAll_id
    intro l hl hne
    obtain ⟨c, r, rfl⟩ := List.exists_cons_of_ne_nil hne
    exact boldM_none (hF c (hl.subset (by simp))).2.1
  have id_it : rewriteAllP italicM none (escapeHtmlText t) = escapeHtmlText t := by
    apply rewriteAllP_id
    intro p l hl hne
    obtain ⟨c, r, rfl⟩ := List.exists_cons_of_ne_nil hne
    exact italicM_none p (hF c (hl.subset (by simp))).2.1
  have id_bul : mapLines bulletLine (escapeHtmlText t) = escapeHtmlText t :=
    mapLines_id _ hnl (bulletLine_id
      (fun c hc => ⟨(hF c hc).2.2.2.2.1, (hF c hc).2.2.2.2.2.1⟩))
  have id_num : mapLines numberedLine (escapeHtmlText t) = escapeHtmlText t :=
    mapLines_id _ hnl (numberedLine_id (fun c hc => (hF c hc).2.2.2.2.2.2.1))
  have id_li : rewriteAll liWrapM (escapeHtmlText t) = escapeHtmlText t := by
    apply rewriteAll_id
    intro l hl hne
    obtain ⟨c, r, rfl⟩ := List.exists_cons_of_ne_nil hne
    exact liWrapM_none ⟨(hF c (hl.subset (by simp))).2.2.2.2.2.2.2.1,
      (hF c (hl.subset (by simp))).1⟩
  have id_nn : rewriteAll nnM (escapeHtmlText t) = escapeHtmlText t := by
    apply rewriteAll_id
    intro l hl hne
    obtain ⟨c, r, rfl⟩ := List.exists_cons_of_ne_nil hne
    exact nnM_none (hnl c (hl.subset (by simp)))
  have id_br : rewriteAll brM (escapeHtmlText t) = escapeHtmlText t := by
    apply rewriteAll_id
    intro l hl hne
    obtain ⟨c, r, rfl⟩ := List.exists_cons_of_ne_nil hne
    exact brM_none (hnl c (hl.subset (by simp)))
  -- the wrapped text, in cons form
  have hweq : "<p>".data ++ escapeHtmlText t ++ "</p>".data
      = '<' :: 'p' :: '>' :: (escapeHtmlText t ++ ['<', '/', 'p', '>']) := by
    simp
  have hawE : isJsSpace a = false := haf.1
  -- clean-up pass identities on the wrapped text
  have id_emptyP : rewriteAll emptyPM
      ('<' :: 'p' :: '>' :: (escapeHtmlText t ++ ['<', '/', 'p', '>']))
      = '<' :: 'p' :: '>' :: (escapeHtmlText t ++ ['<', '/', 'p', '>']) := by
    apply rewriteAll_id
    intro l hl hne
    rcases suffix_of_wrap hlt hl hne with rfl | rfl | ⟨c, r, rfl, hc⟩
    · exact emptyPM_wrap_none hlt haE hawE
    · decide
    · exact emptyPM_none_head hc
  have id_pH : rewriteAll pOpenHM
      ('<' :: 'p' :: '>' :: (escapeHtmlText t ++ ['<', '/', 'p', '>']))
      = '<' :: 'p' :: '>' :: (escapeHtmlText t ++ ['<', '/', 'p', '>']) := by
    apply rewriteAll_id
    intro l hl hne
    rcases suffix_of_wrap hlt hl hne with rfl | rfl | ⟨c, r, rfl, hc⟩
    · exact pOpenHM_wrap_none hlt haE hawE
    · decide
    · exact pOpenHM_none_head hc
  have id_hP : rewriteAll hClosePM
      ('<' :: 'p' :: '>' :: (escapeHtmlText t ++ ['<', '/', 'p', '>']))
      = '<' :: 'p' :: '>' :: (escapeHtmlText t ++ ['<', '/', 'p', '>']) := by
    apply rewriteAll_id
    intro l hl hne
    rcases suffix_of_wrap hlt hl hne with rfl | rfl | ⟨c, r, rfl, hc⟩
    · rfl
    · decide
    · exact hClosePM_none_head hc
  have id_pUl : rewriteAll pOpenUlM
      ('<' :: 'p' :: '>' :: (escapeHtmlText t ++ ['<', '/', 'p', '>']))
      = '<' :: 'p' :: '>' :: (escapeHtmlText t ++ ['<', '/', 'p', '>']) := by
    apply rewriteAll_id
    intro l hl hne
    rcases suffix_of_wrap hlt hl hne with rfl | rfl | ⟨c, r, rfl, hc⟩
    · exact pOpenUlM_wrap_none hlt haE hawE
    · decide
    · exact pOpenUlM_none_head hc
  have id_ulP : rewriteAll ulClosePM
      ('<' :: 'p' :: '>' :: (escapeHtmlText t ++ ['<', '/', 'p', '>']))
      = '<' :: 'p' :: '>' :: (escapeHtmlText t ++ ['<', '/', 'p', '>']) := by
    apply rewriteAll_id
    intro l hl hne
    rcases suffix_of_wrap hlt hl hne with rfl | rfl | ⟨c, r, rfl, hc⟩
    · rfl
    · decide
    · exact ulClosePM_none_head hc
  have id_lit1 : rewriteAll (litM "<p><br>".data "<p>".data)
      ('<' :: 'p' :: '>' :: (escapeHtmlText t ++ ['<', '/', 'p', '>']))
      = '<' :: 'p' :: '>' :: (escapeHtmlText t ++ ['<', '/', 'p', '>']) := by
    apply rewriteAll_id
    intro l hl hne
    rcases suffix_of_wrap hlt hl hne with rfl | rfl | ⟨c, r, rfl, hc⟩
    · exact litM_pbr_wrap_none hlt haE
    · decide
    · exact litM_none_head _ rfl hc
  have id_lit2 : rewriteAll (litM "<br></p>".data "</p>".data)
      ('<' :: 'p' :: '>' :: (escapeHtmlText t ++ ['<', '/', 'p', '>']))
      = '<' :: 'p' :: '>' :: (escapeHtmlText t ++ ['<', '/', 'p', '>']) := by
    apply rewriteAll_id
    intro l hl hne
    rcases suffix_of_wrap hlt hl hne with rfl | rfl | ⟨c, r, rfl, hc⟩
    · rfl
    · decide
    · exact litM_none_head _ rfl hc
  have id_lit3 : rewriteAll (litM "</ul><br>".data "</ul>".data)
      ('<' :: 'p' :: '>' :: (escapeHtmlText t ++ ['<', '/', 'p', '>']))
      = '<' :: 'p' :: '>' :: (escapeHtmlText t ++ ['<', '/', 'p', '>']) := by
    apply rewriteAll_id
    intro l hl hne
    rcases suffix_of_wrap hlt hl hne with rfl | rfl | ⟨c, r, rfl, hc⟩
    · rfl
    · decide
    · exact litM_none_head _ rfl hc
  have id_lit4 : rewriteAll (litM "<br><ul>".data "<ul>".data)
      ('<' :: 'p' :: '>' :: (escapeHtmlText t ++ ['<', '/', 'p', '>']))
      = '<' :: 'p' :: '>' :: (escapeHtmlText t ++ ['<', '/', 'p', '>']) := by
    apply rewriteAll_id
    intro l hl hne
    rcases suffix_of_wrap hlt hl hne with rfl | rfl | ⟨c, r, rfl, hc⟩
    · rfl
    · decide
    · exact litM_none_head _ rfl hc
  have id_brH : rewriteAll brHM
      ('<' :: 'p' :: '>' :: (escapeHtmlText t ++ ['<', '/', 'p', '>']))
      = '<' :: 'p' :: '>' :: (escapeHtmlText t ++ ['<', '/', 'p', '>']) := by
    apply rewriteAll_id
    intro l hl hne
    rcases suffix_of_wrap hlt hl hne with rfl | rfl | ⟨c, r, rfl, hc⟩
    · rfl
    · decide
    · exact brHM_none_head hc
  have id_hBr : rewriteAll hBrM
      ('<' :: 'p' :: '>' :: (escapeHtmlText t ++ ['<', '/', 'p', '>']))
      = '<' :: 'p' :: '>' :: (escapeHtmlText t ++ ['<', '/', 'p', '>']) := by
    apply rewriteAll_id
    intro l hl hne
    rcases suffix_of_wrap hlt hl hne with rfl | rfl | ⟨c, r, rfl, hc⟩
    · rfl
    · decide
    · exact hBrM_none_head hc
  have id_brBr : rewriteAll brBrM
      ('<' :: 'p' :: '>' :: (escapeHtmlText t ++ ['<', '/', 'p', '>']))
      = '<' :: 'p' :: '>' :: (escapeHtmlText t ++ ['<', '/', 'p', '>']) := by
    apply rewriteAll_id
    intro l hl hne
    rcases suffix_of_wrap hlt hl hne with rfl | rfl | ⟨c, r, rfl, hc⟩
    · rfl
    · decide
    · exact brBrM_none_head hc
  unfold formatResponse
  simp only [id_hr, id_nl3, id_link, id_h3, id_h2, id_h1, id_bold, id_it, id_bul,
    id_num, id_li, id_nn, id_br, hweq, id_emptyP, id_pH, id_hP, id_pUl, id_ulP,
    id_lit1, id_lit2, id_lit3, id_lit4, id_brH, id_hBr, id_brBr]

theorem escape_once_c6_witness :
    (∀ c ∈ "a &amp; b".data, safeChar c = true) ∧
    formatResponse "a &amp; b".data
      = "<p>".data ++ escapeHtmlText "a &amp; b".data ++ "</p>".data ∧
    escapeHtmlText "a &amp; b".data = "a &amp;amp; b".data := by
  refine ⟨by decide, ?_, by decide⟩
  exact escape_first_and_once "a &amp; b".data (by decide)
    ⟨'a', by decide, by decide⟩

end RightScheme
